import Mathlib

set_option maxRecDepth 8000
set_option maxHeartbeats 1000000

/- Shallow embedding of the travel-point reconciliation pipeline of
scripts/sync-travel-points.mjs.  JavaScript strings are modeled as Lean
`String`, and all string operations are defined over the underlying `List Char`
so that their behaviour is fully explicit.  JS `toLowerCase`/`toUpperCase` are
modeled character-wise (they agree on ASCII, which is the alphabet the
pipeline's keys are built from), and `String.prototype.normalize('NFKD')` is
modeled as the identity: on strings without precomposed accented characters it
is the identity, and the subsequent removal of the combining-mark range
U+0300..U+036F is embedded exactly. -/

/- ----------------------------------------------------------------- -/
/- String utilities (stripDiacritics, slugify, splitCamel, trim, split) -/
/- ----------------------------------------------------------------- -/

/-- JS `value.split(sep)` for a single-character separator, on char lists.
`jsSplitChar sep l` always returns at least one (possibly empty) piece. -/
def jsSplitChar (sep : Char) : List Char → List (List Char)
  | [] => [[]]
  | c :: rest =>
    match jsSplitChar sep rest with
    | [] => [[]]
    | h :: t => if c = sep then [] :: h :: t else (c :: h) :: t

/-- JS `String.prototype.trim()` on char lists: strip leading and trailing
whitespace. -/
def jsTrimL (l : List Char) : List Char :=
  ((l.dropWhile Char.isWhitespace).reverse.dropWhile Char.isWhitespace).reverse

/-- JS `String.prototype.trim()`. -/
def jsTrim (s : String) : String := ⟨jsTrimL s.data⟩

/-- JS `String.prototype.toUpperCase()`, character-wise (ASCII-faithful). -/
def jsToUpper (s : String) : String := ⟨s.data.map Char.toUpper⟩

/-- JS `String.prototype.toLowerCase()`, character-wise (ASCII-faithful). -/
def jsToLower (s : String) : String := ⟨s.data.map Char.toLower⟩

/-- `stripDiacritics` (source lines 95-99): NFKD-normalize (modeled as the
identity, see the module comment) and remove the combining marks
U+0300..U+036F. -/
def stripDiacriticsL (l : List Char) : List Char :=
  l.filter (fun c => !(0x300 ≤ c.toNat && c.toNat ≤ 0x36f))

/-- Characters kept by the slug regex `[^a-z0-9]+` after lowercasing. -/
def isSlugChar (c : Char) : Bool := c.isLower || c.isDigit

/-- Replace every (nonempty) run of characters satisfying `p` by the single
character `rep`; the `Bool` argument records whether we are inside a run.
This is JS `replace(/X+/g, rep)` for a character class `X`. -/
def collapseRunsBy (p : Char → Bool) (rep : Char) : Bool → List Char → List Char
  | _, [] => []
  | inRun, c :: rest =>
    if p c then
      if inRun then collapseRunsBy p rep true rest
      else rep :: collapseRunsBy p rep true rest
    else c :: collapseRunsBy p rep false rest

/-- JS `replace(/&/g, ' and ')`. -/
def ampExpand (l : List Char) : List Char :=
  l.flatMap (fun c => if c = '&' then " and ".data else [c])

/-- Drop the trailing characters satisfying `p`. -/
def dropWhileEndL (p : Char → Bool) (l : List Char) : List Char :=
  (l.reverse.dropWhile p).reverse

/-- JS `Array.prototype.join(sep)` on char-list pieces. -/
def joinWith (sep : List Char) : List (List Char) → List Char
  | [] => []
  | [t] => t
  | t :: ts => t ++ sep ++ joinWith sep ts

/-- `slugify` (source lines 101-109): strip diacritics, lowercase, expand `&`
to ` and `, collapse non-alphanumeric runs to `-`, strip leading/trailing `-`,
trim. -/
def slugifyL (l : List Char) : List Char :=
  let ascii := stripDiacriticsL l
  let lowered := ascii.map Char.toLower
  let amp := ampExpand lowered
  let dashed := collapseRunsBy (fun c => !(isSlugChar c)) '-' false amp
  jsTrimL (dropWhileEndL (fun c => c = '-') (dashed.dropWhile (fun c => c = '-')))

/-- `slugify` on strings. -/
def slugify (s : String) : String := ⟨slugifyL s.data⟩

/-- The template key `${cc}:${slugify(city)}` used both to build and to probe
the `byCountryCity` index (source lines 238 and 284, and for the updated
point at lines 346 and 363). -/
def ccCityKey (cc city : String) : String :=
  ⟨cc.data ++ ':' :: (slugify city).data⟩

/-- `splitCamel` (source lines 111-113): JS `replace(/([a-z])([A-Z])/g, '$1 $2')`,
i.e. insert a space between a lowercase letter and a following uppercase one. -/
def splitCamelL : List Char → List Char
  | [] => []
  | [c] => [c]
  | a :: b :: rest =>
    if a.isLower && b.isUpper then a :: ' ' :: splitCamelL (b :: rest)
    else a :: splitCamelL (b :: rest)

/- ----------------------------------------------------------------- -/
/- Place parser (parsePlaceFromPublicId, source lines 115-143)        -/
/- ----------------------------------------------------------------- -/

structure PlaceCandidate where
  countryCode : String
  city : String
deriving DecidableEq

/-- The alias table of `parsePlaceFromPublicId`: `{ KO: 'KR', UK: 'GB' }`,
applied as `countryAliases[raw] || raw`. -/
def countryAliases (s : String) : String :=
  if s = "KO" then "KR" else if s = "UK" then "GB" else s

/-- The regex test `/^[A-Z]{2}$/`. -/
def isTwoUpper (s : String) : Bool :=
  s.data.length == 2 && s.data.all Char.isUpper

/-- The city constructed from the middle tokens (source lines 133-138):
camel-split each token, join with spaces, collapse hyphen runs to a space,
collapse whitespace runs to a space, trim. -/
def cityFromTokens (tokens : List (List Char)) : List Char :=
  let joined := joinWith [' '] (tokens.map splitCamelL)
  jsTrimL (collapseRunsBy Char.isWhitespace ' ' false
    (collapseRunsBy (fun c => c = '-') ' ' false joined))

/-- The final path segment of a public id: `String(publicId || '').split('/').pop() || ''`. -/
def lastSegment (publicId : String) : List Char :=
  ((jsSplitChar '/' publicId.data).getLast?).getD []

/-- The nonempty underscore-delimited tokens of the final path segment:
`base.split('_').filter(Boolean)`. -/
def pidParts (publicId : String) : List (List Char) :=
  (jsSplitChar '_' (lastSegment publicId)).filter (fun t => !t.isEmpty)

/-- The alias-resolved uppercased first token: `countryAliases[rawCountryCode] || rawCountryCode`
where `rawCountryCode = parts[0].trim().toUpperCase()`. -/
def pidCountryCode (publicId : String) : String :=
  countryAliases ⟨(jsTrimL ((pidParts publicId).headD [])).map Char.toUpper⟩

/-- The middle tokens `parts.slice(1, Math.max(1, parts.length - 1))`. -/
def pidCityTokens (publicId : String) : List (List Char) :=
  ((pidParts publicId).drop 1).take (max 1 ((pidParts publicId).length - 1) - 1)

/-- `parsePlaceFromPublicId` (source lines 115-143). -/
def parsePlaceFromPublicId (publicId : String) : Option PlaceCandidate :=
  let parts := pidParts publicId
  if parts.length < 2 then none
  else
    let countryCode := pidCountryCode publicId
    if !isTwoUpper countryCode then none
    else
      let rawCityParts := pidCityTokens publicId
      if rawCityParts.length = 0 then none
      else
        let city : String := ⟨cityFromTokens rawCityParts⟩
        if city = "" then none
        else some ⟨countryCode, city⟩

example : parsePlaceFromPublicId "FR_Paris_ynppct" = some ⟨"FR", "Paris"⟩ := by decide
example : parsePlaceFromPublicId "postcards/UK_NewYork-Something_ab" = some ⟨"GB", "New York Something"⟩ := by decide
example : parsePlaceFromPublicId "FR_abc" = none := by decide
example : parsePlaceFromPublicId "FR_-_abc" = none := by decide
example : parsePlaceFromPublicId "Paris" = none := by decide

/- ----------------------------------------------------------------- -/
/- Data model                                                         -/
/- ----------------------------------------------------------------- -/

/-- A persisted TravelPoint, as read from / written to the registry JSON.
String-valued fields are `some s` when the JSON field is present and a string
(`s` may be empty), `none` when absent, null, or of another type (the source
always guards them with `typeof ... === 'string'` or falsy checks).
`lat`/`lng` are `some q` when the stored value is a finite number `q` and
`none` otherwise, which is exactly the distinction `safeNumber`
(source lines 210-213) and `Number.isFinite` draw. -/
structure Point where
  id : Option String := none
  city : Option String := none
  countryCode : Option String := none
  countryName : Option String := none
  lat : Option ℚ := none
  lng : Option ℚ := none
  postcardId : Option String := none
  description : Option String := none
  sourceFolder : Option String := none
deriving DecidableEq

/-- One element of the registry JSON array: either an object (modeled by its
TravelPoint fields) or a non-object value, which the index-building loop
skips (source line 233). -/
inductive RawEntry where
  | obj (p : Point)
  | nonObj
deriving DecidableEq

/-- A remote media resource as consumed by the loop (source lines 257-267):
its `public_id` and the two structured-metadata fields the loop reads.
`none` models an absent or non-string field. -/
structure Resource where
  public_id : Option String := none
  metaPlaceId : Option String := none
  metaDesc : Option String := none
deriving DecidableEq

/-- A geocode-cache value `{lat, lng, city, countryCode}`; `lat`/`lng` are
`some q` exactly when `Number(value)` is finite (the check at source
line 301). -/
structure CacheEntry where
  lat : Option ℚ := none
  lng : Option ℚ := none
  city : Option String := none
  countryCode : Option String := none
deriving DecidableEq

abbrev Cache := List (String × CacheEntry)

/- ----------------------------------------------------------------- -/
/- JS Map / Set / truthiness helpers                                  -/
/- ----------------------------------------------------------------- -/

/-- JS `Map.prototype.get`. -/
def aget {α : Type} (m : List (String × α)) (k : String) : Option α :=
  (m.find? (fun e => e.1 == k)).map (fun e => e.2)

/-- JS `Map.prototype.set`: overwrite in place if the key exists, else append. -/
def aset {α : Type} (m : List (String × α)) (k : String) (v : α) : List (String × α) :=
  if m.any (fun e => e.1 == k) then
    m.map (fun e => if e.1 == k then (k, v) else e)
  else m ++ [(k, v)]

/-- JS `Set.prototype.add`. -/
def addSet (s : List String) (x : String) : List String :=
  if s.contains x then s else s ++ [x]

/-- `cityKeyCountsInFolder.set(key, (cityKeyCountsInFolder.get(key) || 0) + 1)`. -/
def cinc (m : List (String × Nat)) (k : String) : List (String × Nat) :=
  aset m k ((aget m k).getD 0 + 1)

/-- JS `a || b` / `a ?? b` on possibly-absent objects (an object is always
truthy, so the two coincide), and `a ?? b` on nullable strings. -/
def jsOr {α : Type} (a b : Option α) : Option α :=
  match a with
  | some x => some x
  | none => b

/-- JS `o || d` where `o` is a possibly-absent string and `""` is falsy. -/
def jsOrStr (o : Option String) (d : String) : String :=
  match o with
  | some s => if s = "" then d else s
  | none => d

/-- JS `a || b` on nullable strings where `""` is falsy. -/
def jsOrOpt (a b : Option String) : Option String :=
  match a with
  | some s => if s = "" then b else some s
  | none => b

/- ----------------------------------------------------------------- -/
/- Keys, expression building, country names                           -/
/- ----------------------------------------------------------------- -/

/-- `normalizeKey` (source lines 170-172). -/
def normalizeKey (countryCode city : String) : String :=
  ⟨(jsToUpper countryCode).data ++ ':' ::
    ((slugify city).data.map (fun c => if c = '-' then ' ' else c))⟩

/-- `toTravelPointId` (source lines 206-208). -/
def toTravelPointId (countryCode city : String) : String :=
  ⟨(jsToLower countryCode).data ++ '-' :: (slugify city).data⟩

/-- `buildFolderPaths` (source lines 58-61); `galleryRoot` models the
`GALLERY_ROOT` environment variable (default `postcards`). -/
def buildFolderPaths (galleryRoot input : String) : List String :=
  if input.data.contains '/' then [input]
  else [input, ⟨galleryRoot.data ++ '/' :: input.data⟩]

/-- The four clauses pushed per path by `buildExpression` (source lines 65-70). -/
def pathClauses (p : String) : List String :=
  [⟨"asset_folder:\"".data ++ p.data ++ ['\"']⟩,
   ⟨"folder:\"".data ++ p.data ++ ['\"']⟩,
   ⟨"asset_folder:\"".data ++ p.data ++ "/*\"".data⟩,
   ⟨"folder:\"".data ++ p.data ++ "/*\"".data⟩]

/-- `clauses.join(' OR ')`. -/
def joinClauses (cs : List String) : String :=
  ⟨joinWith " OR ".data (cs.map String.data)⟩

/-- `buildExpression` (source lines 63-72). -/
def buildExpression (paths : List String) : String :=
  ⟨'(' :: (joinClauses (paths.flatMap pathClauses)).data ++
    ") AND resource_type:image AND -tags=hidden".data⟩

/-- `getCountryName` (source lines 145-154); `dnOf` models the external
`Intl.DisplayNames(['en'], {type:'region'}).of` call, with `none` standing for
a non-string result or a thrown exception. -/
def getCountryName (dnOf : String → Option String) (countryCode : String) : Option String :=
  match dnOf (jsToUpper countryCode) with
  | some name => if jsTrim name = "" then none else some (jsTrim name)
  | none => none

/- ----------------------------------------------------------------- -/
/- Index building (source lines 227-246)                              -/
/- ----------------------------------------------------------------- -/

structure Indexes where
  byId : List (String × Point) := []
  byPostcardId : List (String × Point) := []
  byCountryCity : List (String × Point) := []
  byCityInFolder : List (String × Point) := []
  cityKeyCountsInFolder : List (String × Nat) := []
deriving DecidableEq

/-- One iteration of the index-building loop (source lines 232-246). -/
def indexEntry (folderKey : String) (ix : Indexes) (e : RawEntry) : Indexes :=
  match e with
  | .nonObj => ix
  | .obj p =>
    let ix1 := match p.id with
      | some s => if s ≠ "" then { ix with byId := aset ix.byId s p } else ix
      | none => ix
    let ix2 := match p.postcardId with
      | some s => if s ≠ "" then { ix1 with byPostcardId := aset ix1.byPostcardId s p } else ix1
      | none => ix1
    let cc := jsToUpper (jsTrim (p.countryCode.getD ""))
    let city := jsTrim (p.city.getD "")
    let ix3 := if cc ≠ "" ∧ city ≠ "" then
        { ix2 with byCountryCity := aset ix2.byCountryCity (ccCityKey cc city) p }
      else ix2
    let src := jsToLower (jsTrim (p.sourceFolder.getD ""))
    if src ≠ "" ∧ src = folderKey ∧ city ≠ "" then
      let key := slugify city
      let ix4 := { ix3 with cityKeyCountsInFolder := cinc ix3.cityKeyCountsInFolder key }
      if (aget ix4.byCityInFolder key).isNone then
        { ix4 with byCityInFolder := aset ix4.byCityInFolder key p }
      else ix4
    else ix3

/- ----------------------------------------------------------------- -/
/- Coordinate resolution (source lines 294-317)                       -/
/- ----------------------------------------------------------------- -/

structure CoordResult where
  lat : Option ℚ
  lng : Option ℚ
  cache : Cache
  geocoded : Nat
  warnings : List String
deriving DecidableEq

/-- The warning pushed on a failed geocode lookup (source line 314). -/
def geocodeFailWarning (countryCode city publicId : String) : String :=
  ⟨"Geocode failed: ".data ++ countryCode.data ++ ' ' :: city.data ++
    " (".data ++ publicId.data ++ [')']⟩

/-- The `geocode` attempt of the cache-miss branch (source lines 305-315).
`geo` models the external Nominatim query (source lines 178-204): `none`
stands for a non-OK response, an empty result list, or non-finite
coordinates; the `sleep(1100)` throttle has no observable effect. -/
def geocodeFallback (geo : String → String → Option (ℚ × ℚ)) (cache : Cache)
    (geocoded : Nat) (warnings : List String)
    (key countryCode city publicId : String) (lat0 lng0 : Option ℚ) : CoordResult :=
  match geo city countryCode with
  | some hit =>
    { lat := some hit.1, lng := some hit.2,
      cache := aset cache key
        { lat := some hit.1, lng := some hit.2, city := some city, countryCode := some countryCode },
      geocoded := geocoded + 1, warnings := warnings }
  | none =>
    { lat := lat0, lng := lng0, cache := cache, geocoded := geocoded,
      warnings := warnings ++ [geocodeFailWarning countryCode city publicId] }

/-- Coordinate resolution (source lines 294-317): keep the matched point's
finite coordinates; otherwise, unless `noGeocode`, consult the cache and then
the geocoder, storing a successful lookup in the cache under the normalized
key. -/
def resolveCoords (noGeocode : Bool) (geo : String → String → Option (ℚ × ℚ))
    (cache : Cache) (geocoded : Nat) (warnings : List String)
    (countryCode city publicId : String) (lat0 lng0 : Option ℚ) : CoordResult :=
  if !(lat0.isSome && lng0.isSome) && !noGeocode then
    let key := normalizeKey countryCode city
    match aget cache key with
    | some cached =>
      if cached.lat.isSome && cached.lng.isSome then
        { lat := cached.lat, lng := cached.lng, cache := cache,
          geocoded := geocoded, warnings := warnings }
      else geocodeFallback geo cache geocoded warnings key countryCode city publicId lat0 lng0
    | none => geocodeFallback geo cache geocoded warnings key countryCode city publicId lat0 lng0
  else
    { lat := lat0, lng := lng0, cache := cache, geocoded := geocoded, warnings := warnings }

/- ----------------------------------------------------------------- -/
/- Match lookup, merge, create (source lines 281-366)                 -/
/- ----------------------------------------------------------------- -/

/-- The four-probe existing-match lookup (source lines 281-288):
metadata place id by `id`, then the resource's own id by `postcardId`, then
`countryCode:slugify(city)`, then the batch-scoped city-only index guarded by
`cityKeyCountsInFolder.get(cityKey) === 1`. -/
def lookupExisting (ix : Indexes) (placeIdFromMeta publicId countryCode city : String) :
    Option Point :=
  jsOr (if placeIdFromMeta ≠ "" then aget ix.byId placeIdFromMeta else none)
    (jsOr (aget ix.byPostcardId publicId)
      (jsOr (aget ix.byCountryCity (ccCityKey countryCode city))
        (if aget ix.cityKeyCountsInFolder (slugify city) = some 1 then
          aget ix.byCityInFolder (slugify city)
        else none)))

/-- The updated point built when a resource matched an existing point
(source lines 325-343).  `countryName` is the value already computed at
source line 292, `id` the one of line 290; object spread plus the explicit
field list of the literal together assign every modeled field. -/
def mergeExisting (existing : Point) (folderKey folderArg : String)
    (id city countryCode : String) (countryName : Option String)
    (lat lng : Option ℚ) (publicId descFromMeta : String) : Point :=
  let existingFolderKey := jsToLower (jsTrim (existing.sourceFolder.getD ""))
  let isAutoFromSameFolder : Prop := existingFolderKey ≠ "" ∧ existingFolderKey = folderKey
  { existing with
    id := some id,
    city := some (if isAutoFromSameFolder then city else jsOrStr existing.city city),
    countryCode := some (jsToUpper
      (if isAutoFromSameFolder then countryCode else jsOrStr existing.countryCode countryCode)),
    countryName := if isAutoFromSameFolder then jsOr countryName existing.countryName
      else jsOr existing.countryName countryName,
    lat := lat, lng := lng,
    postcardId := some (if isAutoFromSameFolder then publicId
      else jsOrStr existing.postcardId publicId),
    description := jsOr existing.description
      (if descFromMeta ≠ "" then some descFromMeta else none),
    sourceFolder := some folderArg }

/-- The point created when no existing match was found (source lines 350-360). -/
def newPoint (id city countryCode : String) (countryName : Option String)
    (lat lng : Option ℚ) (publicId descFromMeta folderArg : String) : Point :=
  { id := some id, city := some city, countryCode := some countryCode,
    countryName := countryName, lat := lat, lng := lng,
    postcardId := some publicId,
    description := if descFromMeta ≠ "" then some descFromMeta else none,
    sourceFolder := some folderArg }

/-- The four `Map.set` calls that follow both the update and the create
branches (source lines 344-347 and 361-364). -/
def insertPoint (ix : Indexes) (id : String) (next : Point) : Indexes :=
  { ix with
    byId := aset ix.byId id next,
    byPostcardId := aset ix.byPostcardId (next.postcardId.getD "") next,
    byCountryCity := aset ix.byCountryCity
      (ccCityKey (next.countryCode.getD "") (next.city.getD "")) next,
    byCityInFolder := aset ix.byCityInFolder (slugify (next.city.getD "")) next }

/- ----------------------------------------------------------------- -/
/- The per-resource loop body (source lines 257-367)                  -/
/- ----------------------------------------------------------------- -/

structure LoopState where
  ix : Indexes
  cache : Cache
  publicIdsInFolder : List String := []
  cityConflicts : List (String × List (String × String)) := []
  added : Nat := 0
  updated : Nat := 0
  geocoded : Nat := 0
  skipped : Nat := 0
  warnings : List String := []
deriving DecidableEq

/-- `cityConflicts.get(cityKey).push({publicId, countryCode})`, creating the
bucket first when absent (source lines 278-279). -/
def pushConflict (m : List (String × List (String × String))) (k : String)
    (entry : String × String) : List (String × List (String × String)) :=
  match aget m k with
  | some l => aset m k (l ++ [entry])
  | none => m ++ [(k, [entry])]

/-- The skip warning of source line 270. -/
def skipWarning (publicId : String) : String :=
  ⟨"Skip (cannot parse place): ".data ++ publicId.data⟩

/-- One iteration of the main resource loop (source lines 257-367). -/
def processResource (folderArg folderKey : String) (noGeocode : Bool)
    (geo : String → String → Option (ℚ × ℚ)) (dnOf : String → Option String)
    (s : LoopState) (r : Resource) : LoopState :=
  match r.public_id with
  | none => s
  | some publicId =>
    if publicId = "" then s
    else
      let s1 := { s with publicIdsInFolder := addSet s.publicIdsInFolder publicId }
      let placeIdFromMeta := jsTrim (r.metaPlaceId.getD "")
      let descFromMeta := jsTrim (r.metaDesc.getD "")
      match parsePlaceFromPublicId publicId with
      | none =>
        { s1 with skipped := s1.skipped + 1, warnings := s1.warnings ++ [skipWarning publicId] }
      | some parsed =>
        let countryCode := parsed.countryCode
        let city := parsed.city
        let cityKey := slugify city
        let s2 := { s1 with cityConflicts := pushConflict s1.cityConflicts cityKey (publicId, countryCode) }
        let existing := lookupExisting s2.ix placeIdFromMeta publicId countryCode city
        let id := if placeIdFromMeta ≠ "" then placeIdFromMeta
          else (existing.bind Point.id).getD (toTravelPointId countryCode city)
        let countryName := jsOrOpt (getCountryName dnOf countryCode) (existing.bind Point.countryName)
        let lat0 := existing.bind Point.lat
        let lng0 := existing.bind Point.lng
        let cr := resolveCoords noGeocode geo s2.cache s2.geocoded s2.warnings
          countryCode city publicId lat0 lng0
        let s3 := { s2 with cache := cr.cache, geocoded := cr.geocoded, warnings := cr.warnings }
        if !(cr.lat.isSome && cr.lng.isSome) then
          { s3 with skipped := s3.skipped + 1 }
        else
          match existing with
          | some e =>
            let next := mergeExisting e folderKey folderArg id city countryCode countryName
              cr.lat cr.lng publicId descFromMeta
            { s3 with ix := insertPoint s3.ix id next, updated := s3.updated + 1 }
          | none =>
            let next := newPoint id city countryCode countryName cr.lat cr.lng
              publicId descFromMeta folderArg
            { s3 with ix := insertPoint s3.ix id next, added := s3.added + 1 }

/- ----------------------------------------------------------------- -/
/- Conflict warnings, pruning, final output (source lines 370-413)    -/
/- ----------------------------------------------------------------- -/

/-- An ASCII apostrophe, kept out of string literals. -/
def apos : Char := Char.ofNat 39

/-- The cross-country conflict warnings (source lines 370-379). -/
def conflictWarnings (conflicts : List (String × List (String × String))) : List String :=
  conflicts.filterMap (fun kv =>
    if kv.2.length < 2 then none
    else if ((kv.2.map Prod.snd).dedup).length ≤ 1 then none
    else some ⟨"Conflicting country codes for city ".data ++ apos :: kv.1.data ++ apos ::
      ": ".data ++ joinWith ", ".data ((kv.2.take 6).map (fun e => e.2.data ++ ':' :: e.1.data))⟩)

/-- The stale-auto-point prune filter (source lines 383-390). -/
def keepPrune (prune : Bool) (folderKey : String) (publicIds : List String) (p : Point) : Bool :=
  if !prune then true
  else
    let src := jsToLower (jsTrim (p.sourceFolder.getD ""))
    if src = "" ∨ src ≠ folderKey then true
    else
      let pid := jsTrim (p.postcardId.getD "")
      if pid = "" then true
      else publicIds.contains pid

/-- The legacy-cleanup filter (source lines 394-408). -/
def keepLegacy (prune : Bool) (publicIds : List String)
    (byCityInFolder : List (String × Point)) (p : Point) : Bool :=
  if !prune then true
  else
    let src := jsToLower (jsTrim (p.sourceFolder.getD ""))
    if src ≠ "" then true
    else
      let pid := jsTrim (p.postcardId.getD "")
      if pid = "" then true
      else if publicIds.contains pid then true
      else
        let city := jsTrim (p.city.getD "")
        if city = "" then true
        else
          match aget byCityInFolder (slugify city) with
          | none => true
          | some replacement => replacement.id == p.id

/-- The final output list (source lines 381-413).  `.filter(Boolean)` cannot
drop a map value (objects are truthy) and is modeled by a trivial filter; the
closing locale-aware sort (`localeCompare`) is environment-dependent, only
permutes the list, and is irrelevant to every property below, so the
embedding returns the unsorted list. -/
def finalOut (prune : Bool) (folderKey : String) (publicIds : List String) (ix : Indexes) :
    List Point :=
  (((ix.byId.map Prod.snd).filter (fun _ => true)).filter
    (keepPrune prune folderKey publicIds)).filter
    (keepLegacy prune publicIds ix.byCityInFolder)

/- ----------------------------------------------------------------- -/
/- The reconciler (main, source lines 215-437)                        -/
/- ----------------------------------------------------------------- -/

structure ReconcileResult where
  points : List Point
  added : Nat
  updated : Nat
  geocoded : Nat
  skipped : Nat
  cache : Cache
  warnings : List String
deriving DecidableEq

/-- The reconciliation core of `main` (source lines 215-437), as the
`reconcile(resources, existingPoints, cache, batchLabel)` contract of the
spec, with the CLI flags (`noGeocode`, `prune`) and the external oracles
(`geo` for the Nominatim client, `dnOf` for `Intl.DisplayNames`) passed
explicitly.  The resource list is the already-fetched (and `--limit`-sliced)
batch; file I/O, credential checks and console logging are plumbing outside
the core. -/
def reconcile (resources : List Resource) (entries : List RawEntry)
    (cache : Cache) (folderArg : String) (noGeocode prune : Bool)
    (geo : String → String → Option (ℚ × ℚ)) (dnOf : String → Option String) :
    ReconcileResult :=
  let folderKey := jsToLower (jsTrim folderArg)
  let ix0 := entries.foldl (indexEntry folderKey) {}
  let s0 : LoopState := { ix := ix0, cache := cache }
  let s := resources.foldl (processResource folderArg folderKey noGeocode geo dnOf) s0
  { points := finalOut prune folderKey s.publicIdsInFolder s.ix,
    added := s.added, updated := s.updated, geocoded := s.geocoded,
    skipped := s.skipped, cache := s.cache,
    warnings := s.warnings ++ conflictWarnings s.cityConflicts }

/- ----------------------------------------------------------------- -/
/- Fixed external oracles used by concrete runs                       -/
/- ----------------------------------------------------------------- -/

/-- A geocoder with no network available: every lookup fails. -/
def geoNone : String → String → Option (ℚ × ℚ) := fun _ _ => none

/-- An `Intl.DisplayNames` oracle that resolves no region name. -/
def dnNone : String → Option String := fun _ => none

/- ----------------------------------------------------------------- -/
/- General lemmas about the JS Map / Set model                        -/
/- ----------------------------------------------------------------- -/

theorem aget_nil {α : Type} (k : String) : aget ([] : List (String × α)) k = none := rfl

theorem aget_cons {α : Type} (e : String × α) (m : List (String × α)) (k : String) :
    aget (e :: m) k = if e.1 = k then some e.2 else aget m k := by
  by_cases h : e.1 = k
  · simp [aget, List.find?, h]
  · have h' : (e.1 == k) = false := by simp [h]
    simp [aget, List.find?, h', h]

theorem any_key_iff {α : Type} (m : List (String × α)) (k : String) :
    (m.any (fun e => e.1 == k)) = true ↔ k ∈ m.map Prod.fst := by
  simp only [List.any_eq_true, beq_iff_eq, List.mem_map]

theorem aget_replace_self {α : Type} (m : List (String × α)) (k : String) (v : α)
    (h : k ∈ m.map Prod.fst) :
    aget (m.map (fun e => if (e.1 == k) = true then (k, v) else e)) k = some v := by
  induction m with
  | nil => simp at h
  | cons e rest ih =>
    by_cases he : e.1 = k
    · simp only [List.map_cons, he, beq_self_eq_true, if_true]
      simp [aget_cons]
    · have he' : (e.1 == k) = false := by simp [he]
      simp only [List.map_cons, he', Bool.false_eq_true, if_false]
      rw [aget_cons]
      simp only [he, if_false]
      apply ih
      simp only [List.map_cons, List.mem_cons] at h
      rcases h with h | h
      · exact absurd h.symm he
      · exact h

theorem aget_append_self {α : Type} (m : List (String × α)) (k : String) (v : α)
    (h : k ∉ m.map Prod.fst) :
    aget (m ++ [(k, v)]) k = some v := by
  induction m with
  | nil => simp [aget, List.find?]
  | cons e rest ih =>
    simp only [List.map_cons, List.mem_cons] at h
    push_neg at h
    rw [List.cons_append, aget_cons]
    simp only [Ne.symm h.1, if_false]
    exact ih h.2

theorem aget_aset_self {α : Type} (m : List (String × α)) (k : String) (v : α) :
    aget (aset m k v) k = some v := by
  unfold aset
  by_cases h : (m.any (fun e => e.1 == k)) = true
  · simp only [h, if_true]
    exact aget_replace_self m k v ((any_key_iff m k).mp h)
  · simp only [h, if_false]
    apply aget_append_self
    intro hmem
    exact h ((any_key_iff m k).mpr hmem)

theorem aget_replace_ne {α : Type} (m : List (String × α)) (k k' : String) (v : α)
    (h : k' ≠ k) :
    aget (m.map (fun e => if (e.1 == k) = true then (k, v) else e)) k' = aget m k' := by
  induction m with
  | nil => rfl
  | cons e rest ih =>
    by_cases he : e.1 = k
    · simp only [List.map_cons, he, beq_self_eq_true, if_true]
      rw [aget_cons, aget_cons]
      simp only [he, Ne.symm h, if_false]
      exact ih
    · have he' : (e.1 == k) = false := by simp [he]
      simp only [List.map_cons, he', Bool.false_eq_true, if_false]
      rw [aget_cons, aget_cons]
      by_cases hk' : e.1 = k'
      · simp [hk']
      · simp only [hk', if_false]
        exact ih

theorem aget_append_ne {α : Type} (m : List (String × α)) (k k' : String) (v : α)
    (h : k' ≠ k) :
    aget (m ++ [(k, v)]) k' = aget m k' := by
  induction m with
  | nil =>
    rw [List.nil_append, aget_cons]
    simp [Ne.symm h, aget_nil]
  | cons e rest ih =>
    rw [List.cons_append, aget_cons, aget_cons]
    by_cases hk' : e.1 = k'
    · simp [hk']
    · simp only [hk', if_false]
      exact ih

theorem aget_aset_ne {α : Type} (m : List (String × α)) (k k' : String) (v : α)
    (h : k' ≠ k) :
    aget (aset m k v) k' = aget m k' := by
  unfold aset
  by_cases hmem : (m.any (fun e => e.1 == k)) = true
  · simp only [hmem, if_true]
    exact aget_replace_ne m k k' v h
  · simp only [hmem, if_false]
    exact aget_append_ne m k k' v h

/- ----------------------------------------------------------------- -/
/- C4: the reconciler's search expression and the "hidden" tag        -/
/- ----------------------------------------------------------------- -/

/-- C4 (counterexample): contrary to the claim that the reconciler's search
expression contains no clause excluding the tag "hidden", the expression built
for the default folder argument "Countries" (with the default gallery root)
ends in the clause ` AND -tags=hidden`, the very same exclusion the gallery
build uses. -/
theorem C4_counterexample :
    " AND -tags=hidden".data <:+
      (buildExpression (buildFolderPaths "postcards" "Countries")).data ∧
    buildExpression (buildFolderPaths "postcards" "Countries") =
      "(asset_folder:\"Countries\" OR folder:\"Countries\" OR asset_folder:\"Countries/*\" OR folder:\"Countries/*\" OR asset_folder:\"postcards/Countries\" OR folder:\"postcards/Countries\" OR asset_folder:\"postcards/Countries/*\" OR folder:\"postcards/Countries/*\") AND resource_type:image AND -tags=hidden" := by
  constructor
  · decide
  · decide

/-- C4 (amended): for every gallery root and folder argument, the expression
built by `buildExpression` over `buildFolderPaths` does contain the clause
excluding resources tagged "hidden" — it always ends in ` AND -tags=hidden`,
exactly as the gallery build's search expression does. -/
theorem C4_expression_always_excludes_hidden (galleryRoot folderArg : String) :
    ∃ rest : List Char,
      (buildExpression (buildFolderPaths galleryRoot folderArg)).data =
        rest ++ " AND -tags=hidden".data := by
  refine ⟨'(' :: (joinClauses ((buildFolderPaths galleryRoot folderArg).flatMap pathClauses)).data ++
    ") AND resource_type:image".data, ?_⟩
  have h : ") AND resource_type:image AND -tags=hidden".data =
      ") AND resource_type:image".data ++ " AND -tags=hidden".data := by decide
  show '(' :: _ ++ ") AND resource_type:image AND -tags=hidden".data = _
  rw [h]
  simp

/- ----------------------------------------------------------------- -/
/- C8: parser rejection of short identifiers                          -/
/- ----------------------------------------------------------------- -/

/-- C8: for every identifier whose final path segment has at most two
nonempty underscore-delimited tokens — which covers both the fewer-than-two
case and every two-token `CC_suffix` identifier — `parsePlaceFromPublicId`
returns `none` (being a total function, it cannot throw). -/
theorem C8_parse_rejects_short (publicId : String)
    (h : (pidParts publicId).length ≤ 2) :
    parsePlaceFromPublicId publicId = none := by
  unfold parsePlaceFromPublicId
  by_cases h2 : (pidParts publicId).length < 2
  · simp [h2]
  · have hl : (pidParts publicId).length = 2 := le_antisymm h (not_lt.mp h2)
    have htok : pidCityTokens publicId = [] := by
      unfold pidCityTokens
      rw [hl]
      simp
    simp only [h2, if_false, htok]
    split
    · rfl
    · simp

/-- C8 (witness): the two-token identifier `FR_abc` parses to `none`. -/
theorem C8_witness :
    (pidParts "FR_abc").length ≤ 2 ∧ parsePlaceFromPublicId "FR_abc" = none :=
  ⟨by decide, C8_parse_rejects_short "FR_abc" (by decide)⟩

/- ----------------------------------------------------------------- -/
/- Character-membership lemmas for the parser pipeline                -/
/- ----------------------------------------------------------------- -/

theorem jsSplitChar_cons (sep c : Char) (rest : List Char) :
    jsSplitChar sep (c :: rest) =
      match jsSplitChar sep rest with
      | [] => [[]]
      | h :: t => if c = sep then [] :: h :: t else (c :: h) :: t := rfl

theorem splitCamelL_cons₂ (a b : Char) (rest : List Char) :
    splitCamelL (a :: b :: rest) =
      if a.isLower && b.isUpper then a :: ' ' :: splitCamelL (b :: rest)
      else a :: splitCamelL (b :: rest) := rfl

theorem joinWith_cons_cons (sep t t2 : List Char) (rest2 : List (List Char)) :
    joinWith sep (t :: t2 :: rest2) = t ++ sep ++ joinWith sep (t2 :: rest2) := rfl

theorem collapseRunsBy_cons (p : Char → Bool) (rep : Char) (b : Bool) (d : Char)
    (rest : List Char) :
    collapseRunsBy p rep b (d :: rest) =
      if p d then
        (if b then collapseRunsBy p rep true rest
         else rep :: collapseRunsBy p rep true rest)
      else d :: collapseRunsBy p rep false rest := rfl

theorem not_mem_jsSplitChar (sep : Char) (l : List Char) :
    ∀ t ∈ jsSplitChar sep l, sep ∉ t := by
  induction l with
  | nil =>
    intro t ht
    simp only [jsSplitChar, List.mem_singleton] at ht
    simp [ht]
  | cons c rest ih =>
    intro t ht
    rcases hs : jsSplitChar sep rest with _ | ⟨h, ts⟩
    · have heq : jsSplitChar sep (c :: rest) = [[]] := by
        rw [jsSplitChar_cons, hs]
      rw [heq] at ht
      simp only [List.mem_singleton] at ht
      simp [ht]
    · have heq : jsSplitChar sep (c :: rest) =
          if c = sep then [] :: h :: ts else (c :: h) :: ts := by
        rw [jsSplitChar_cons, hs]
      rw [heq] at ht
      by_cases hc : c = sep
      · rw [if_pos hc] at ht
        rcases List.mem_cons.mp ht with ht | ht
        · simp [ht]
        · exact ih t (hs ▸ ht)
      · rw [if_neg hc] at ht
        rcases List.mem_cons.mp ht with ht | ht
        · subst ht
          intro hmem
          rcases List.mem_cons.mp hmem with hm | hm
          · exact hc hm.symm
          · exact ih h (hs ▸ List.mem_cons_self h ts) hm
        · exact ih t (hs ▸ List.mem_cons_of_mem h ht)

theorem mem_splitCamelL (t : List Char) : ∀ c ∈ splitCamelL t, c ∈ t ∨ c = ' ' := by
  induction t with
  | nil => simp [splitCamelL]
  | cons a rest ih =>
    cases rest with
    | nil =>
      intro c hc
      simp only [splitCamelL, List.mem_singleton] at hc
      simp [hc]
    | cons b rest2 =>
      intro c hc
      rw [splitCamelL_cons₂] at hc
      by_cases hab : (a.isLower && b.isUpper) = true
      · rw [if_pos hab] at hc
        rcases List.mem_cons.mp hc with hc | hc
        · simp [hc]
        · rcases List.mem_cons.mp hc with hc | hc
          · exact Or.inr hc
          · rcases ih c hc with h | h
            · exact Or.inl (List.mem_cons_of_mem a h)
            · exact Or.inr h
      · rw [if_neg hab] at hc
        rcases List.mem_cons.mp hc with hc | hc
        · simp [hc]
        · rcases ih c hc with h | h
          · exact Or.inl (List.mem_cons_of_mem a h)
          · exact Or.inr h

theorem mem_joinWith (sep : List Char) (ts : List (List Char)) :
    ∀ c ∈ joinWith sep ts, c ∈ sep ∨ ∃ t ∈ ts, c ∈ t := by
  induction ts with
  | nil => simp [joinWith]
  | cons t rest ih =>
    cases rest with
    | nil =>
      intro c hc
      rw [show joinWith sep [t] = t from rfl] at hc
      exact Or.inr ⟨t, by simp, hc⟩
    | cons t2 rest2 =>
      intro c hc
      rw [joinWith_cons_cons] at hc
      rcases List.mem_append.mp hc with hc | hc
      · rcases List.mem_append.mp hc with hc | hc
        · exact Or.inr ⟨t, by simp, hc⟩
        · exact Or.inl hc
      · rcases ih c hc with h | ⟨u, hu, hcu⟩
        · exact Or.inl h
        · exact Or.inr ⟨u, List.mem_cons_of_mem t hu, hcu⟩

theorem mem_collapseRunsBy (p : Char → Bool) (rep : Char) (b : Bool) (l : List Char) :
    ∀ c ∈ collapseRunsBy p rep b l, c = rep ∨ c ∈ l := by
  induction l generalizing b with
  | nil => simp [collapseRunsBy]
  | cons d rest ih =>
    intro c hc
    rw [collapseRunsBy_cons] at hc
    by_cases hd : p d = true
    · rw [if_pos hd] at hc
      cases b with
      | false =>
        rw [if_neg (by simp)] at hc
        rcases List.mem_cons.mp hc with hc | hc
        · exact Or.inl hc
        · rcases ih true c hc with h | h
          · exact Or.inl h
          · exact Or.inr (List.mem_cons_of_mem d h)
      | true =>
        rw [if_pos rfl] at hc
        rcases ih true c hc with h | h
        · exact Or.inl h
        · exact Or.inr (List.mem_cons_of_mem d h)
    · rw [if_neg hd] at hc
      rcases List.mem_cons.mp hc with hc | hc
      · exact Or.inr (by simp [hc])
      · rcases ih false c hc with h | h
        · exact Or.inl h
        · exact Or.inr (List.mem_cons_of_mem d h)

theorem mem_jsTrimL (l : List Char) : ∀ c ∈ jsTrimL l, c ∈ l := by
  intro c hc
  unfold jsTrimL at hc
  rw [List.mem_reverse] at hc
  have h1 := (List.dropWhile_sublist _).subset hc
  rw [List.mem_reverse] at h1
  exact (List.dropWhile_sublist _).subset h1

theorem mem_cityFromTokens (toks : List (List Char)) :
    ∀ c ∈ cityFromTokens toks, c = ' ' ∨ ∃ t ∈ toks, c ∈ t := by
  intro c hc
  unfold cityFromTokens at hc
  have h1 := mem_jsTrimL _ c hc
  rcases mem_collapseRunsBy _ _ _ _ c h1 with h | h
  · exact Or.inl h
  rcases mem_collapseRunsBy _ _ _ _ c h with h | h
  · exact Or.inl h
  rcases mem_joinWith _ _ c h with h | ⟨t, ht, hct⟩
  · exact Or.inl (List.mem_singleton.mp h)
  rcases List.mem_map.mp ht with ⟨t0, ht0, rfl⟩
  rcases mem_splitCamelL t0 c hct with h | h
  · exact Or.inr ⟨t0, ht0, h⟩
  · exact Or.inl h

theorem underscore_not_mem_pidParts (publicId : String) :
    ∀ t ∈ pidParts publicId, '_' ∉ t := by
  intro t ht
  unfold pidParts at ht
  exact not_mem_jsSplitChar '_' _ t (List.mem_of_mem_filter ht)

theorem mem_pidParts_of_mem_cityTokens (publicId : String) :
    ∀ t ∈ pidCityTokens publicId, t ∈ pidParts publicId := by
  intro t ht
  unfold pidCityTokens at ht
  exact List.mem_of_mem_drop (List.mem_of_mem_take ht)

/- ----------------------------------------------------------------- -/
/- C7: parser success postcondition                                   -/
/- ----------------------------------------------------------------- -/

/-- C7 (counterexample): the identifier `FR_-_x` splits into a valid 2-letter
country code, one city token and a trailing suffix token, yet
`parsePlaceFromPublicId` returns `none` (the single city token `-` normalizes
to the empty city), contradicting the claim that every such identifier yields
a non-null candidate. -/
theorem C7_counterexample :
    (pidParts "FR_-_x").length = 3 ∧
    isTwoUpper (pidCountryCode "FR_-_x") = true ∧
    parsePlaceFromPublicId "FR_-_x" = none := by
  refine ⟨by decide, by decide, by decide⟩

/-- C7 (amended): for every identifier whose final path segment splits into a
valid (trimmed, uppercased, alias-resolved) 2-letter country code, one or more
city tokens and a trailing suffix token, and whose middle tokens normalize to
a non-empty city string, `parsePlaceFromPublicId` returns a candidate whose
`city` contains no underscore and whose `countryCode` is exactly the
alias-resolved uppercased first token. -/
theorem C7_parse_success (publicId : String)
    (h3 : 3 ≤ (pidParts publicId).length)
    (hcc : isTwoUpper (pidCountryCode publicId) = true)
    (hcity : cityFromTokens (pidCityTokens publicId) ≠ []) :
    parsePlaceFromPublicId publicId =
      some ⟨pidCountryCode publicId, ⟨cityFromTokens (pidCityTokens publicId)⟩⟩ ∧
    '_' ∉ (cityFromTokens (pidCityTokens publicId)) := by
  constructor
  · unfold parsePlaceFromPublicId
    have hn2 : ¬ ((pidParts publicId).length < 2) := by omega
    have hne : ¬ ((pidCityTokens publicId).length = 0) := by
      intro h0
      exact hcity (by rw [List.length_eq_zero.mp h0]; rfl)
    have hne' : (⟨cityFromTokens (pidCityTokens publicId)⟩ : String) ≠ "" := by
      intro h
      exact hcity (by
        have := congrArg String.data h
        simpa using this)
    simp only [if_neg hn2, hcc, Bool.not_true, Bool.false_eq_true, if_false,
      if_neg hne, if_neg hne']
  · intro hmem
    rcases mem_cityFromTokens _ '_' hmem with h | ⟨t, ht, hct⟩
    · exact absurd h (by decide)
    · exact underscore_not_mem_pidParts publicId t
        (mem_pidParts_of_mem_cityTokens publicId t ht) hct

/-- C7 (witness): `FR_Paris_ynppct` satisfies the hypotheses and parses to
`{countryCode := FR, city := Paris}` with an underscore-free city. -/
theorem C7_witness :
    parsePlaceFromPublicId "FR_Paris_ynppct" =
      some ⟨pidCountryCode "FR_Paris_ynppct", ⟨cityFromTokens (pidCityTokens "FR_Paris_ynppct")⟩⟩ ∧
    '_' ∉ (cityFromTokens (pidCityTokens "FR_Paris_ynppct")) :=
  C7_parse_success "FR_Paris_ynppct" (by decide) (by decide) (by decide)

/- ----------------------------------------------------------------- -/
/- C5: match priority                                                 -/
/- ----------------------------------------------------------------- -/

/-- C5: the existing-match lookup probes in this exact order: (a) the
metadata place identifier by `id` when present and found, (b) the resource's
own identifier by `postcardId`, (c) the `countryCode:normalizedCity` key,
(d) the batch-scoped city-only index exactly when the batch city count is 1 —
and the first probe that yields a point wins. -/
theorem C5_match_priority (ix : Indexes) (placeIdFromMeta publicId countryCode city : String) :
    (∀ p, placeIdFromMeta ≠ "" → aget ix.byId placeIdFromMeta = some p →
      lookupExisting ix placeIdFromMeta publicId countryCode city = some p) ∧
    (∀ p, (placeIdFromMeta = "" ∨ aget ix.byId placeIdFromMeta = none) →
      aget ix.byPostcardId publicId = some p →
      lookupExisting ix placeIdFromMeta publicId countryCode city = some p) ∧
    (∀ p, (placeIdFromMeta = "" ∨ aget ix.byId placeIdFromMeta = none) →
      aget ix.byPostcardId publicId = none →
      aget ix.byCountryCity (ccCityKey countryCode city) = some p →
      lookupExisting ix placeIdFromMeta publicId countryCode city = some p) ∧
    ((placeIdFromMeta = "" ∨ aget ix.byId placeIdFromMeta = none) →
      aget ix.byPostcardId publicId = none →
      aget ix.byCountryCity (ccCityKey countryCode city) = none →
      lookupExisting ix placeIdFromMeta publicId countryCode city =
        (if aget ix.cityKeyCountsInFolder (slugify city) = some 1 then
          aget ix.byCityInFolder (slugify city) else none)) := by
  refine ⟨?_, ?_, ?_, ?_⟩
  · intro p h1 h2
    simp [lookupExisting, jsOr, h1, h2]
  · intro p h1 h2
    rcases h1 with h1 | h1
    · simp [lookupExisting, jsOr, h1, h2]
    · by_cases hm : placeIdFromMeta ≠ ""
      · simp [lookupExisting, jsOr, hm, h1, h2]
      · simp only [not_not] at hm
        simp [lookupExisting, jsOr, hm, h2]
  · intro p h1 h2 h3
    rcases h1 with h1 | h1
    · simp [lookupExisting, jsOr, h1, h2, h3]
    · by_cases hm : placeIdFromMeta ≠ ""
      · simp [lookupExisting, jsOr, hm, h1, h2, h3]
      · simp only [not_not] at hm
        simp [lookupExisting, jsOr, hm, h2, h3]
  · intro h1 h2 h3
    rcases h1 with h1 | h1
    · by_cases hc : aget ix.cityKeyCountsInFolder (slugify city) = some 1
      · simp [lookupExisting, jsOr, h1, h2, h3, hc]
      · simp [lookupExisting, jsOr, h1, h2, h3, hc]
    · by_cases hm : placeIdFromMeta ≠ ""
      · by_cases hc : aget ix.cityKeyCountsInFolder (slugify city) = some 1
        · simp [lookupExisting, jsOr, hm, h1, h2, h3, hc]
        · simp [lookupExisting, jsOr, hm, h1, h2, h3, hc]
      · simp only [not_not] at hm
        by_cases hc : aget ix.cityKeyCountsInFolder (slugify city) = some 1
        · simp [lookupExisting, jsOr, hm, h2, h3, hc]
        · simp [lookupExisting, jsOr, hm, h2, h3, hc]

/-- C5 (witness): in an index holding the single point at id `a`, a resource
whose metadata carries place id `a` matches it through probe (a). -/
theorem C5_witness :
    lookupExisting ⟨[("a", { id := some "a" })], [], [], [], []⟩ "a" "x" "FR" "Paris" =
      some { id := some "a" } :=
  (C5_match_priority ⟨[("a", { id := some "a" })], [], [], [], []⟩ "a" "x" "FR" "Paris").1
    { id := some "a" } (by decide) (by decide)

/- ----------------------------------------------------------------- -/
/- C9: geocode cache population                                       -/
/- ----------------------------------------------------------------- -/

theorem resolveCoords_cache_stable (noGeocode : Bool)
    (geo : String → String → Option (ℚ × ℚ)) (cache : Cache) (geocoded : Nat)
    (warnings : List String) (countryCode city publicId : String)
    (lat0 lng0 : Option ℚ) (k : String) (e : CacheEntry)
    (hfin : (e.lat.isSome && e.lng.isSome) = true)
    (h : aget cache k = some e) :
    aget (resolveCoords noGeocode geo cache geocoded warnings
      countryCode city publicId lat0 lng0).cache k = some e := by
  unfold resolveCoords
  by_cases hcond : (!(lat0.isSome && lng0.isSome) && !noGeocode) = true
  · rw [if_pos hcond]
    dsimp only
    rcases hcached : aget cache (normalizeKey countryCode city) with _ | cached
    · simp only [hcached]
      unfold geocodeFallback
      cases hgeo : geo city countryCode with
      | none => exact h
      | some hit =>
        dsimp only
        by_cases hk : k = normalizeKey countryCode city
        · rw [hk] at h
          rw [h] at hcached
          cases hcached
        · rw [aget_aset_ne cache _ k _ hk]
          exact h
    · simp only [hcached]
      by_cases hfin2 : (cached.lat.isSome && cached.lng.isSome) = true
      · rw [if_pos hfin2]
        exact h
      · rw [if_neg hfin2]
        unfold geocodeFallback
        cases hgeo : geo city countryCode with
        | none => exact h
        | some hit =>
          dsimp only
          by_cases hk : k = normalizeKey countryCode city
          · rw [hk] at h
            rw [h] at hcached
            injection hcached with he
            rw [he] at hfin
            exact absurd hfin hfin2
          · rw [aget_aset_ne cache _ k _ hk]
            exact h
  · rw [if_neg hcond]
    exact h

theorem processResource_cache_stable (folderArg folderKey : String) (noGeocode : Bool)
    (geo : String → String → Option (ℚ × ℚ)) (dnOf : String → Option String)
    (s : LoopState) (r : Resource) (k : String) (e : CacheEntry)
    (hfin : (e.lat.isSome && e.lng.isSome) = true)
    (h : aget s.cache k = some e) :
    aget (processResource folderArg folderKey noGeocode geo dnOf s r).cache k = some e := by
  unfold processResource
  cases hr : r.public_id with
  | none => exact h
  | some publicId =>
    dsimp only
    by_cases hpid : publicId = ""
    · rw [if_pos hpid]
      exact h
    · rw [if_neg hpid]
      cases hp : parsePlaceFromPublicId publicId with
      | none => exact h
      | some parsed =>
        dsimp only
        split
        · exact resolveCoords_cache_stable _ _ _ _ _ _ _ _ _ _ k e hfin h
        · split
          · exact resolveCoords_cache_stable _ _ _ _ _ _ _ _ _ _ k e hfin h
          · exact resolveCoords_cache_stable _ _ _ _ _ _ _ _ _ _ k e hfin h

theorem foldl_cache_stable (folderArg folderKey : String) (noGeocode : Bool)
    (geo : String → String → Option (ℚ × ℚ)) (dnOf : String → Option String)
    (resources : List Resource) (s : LoopState) (k : String) (e : CacheEntry)
    (hfin : (e.lat.isSome && e.lng.isSome) = true)
    (h : aget s.cache k = some e) :
    aget ((resources.foldl (processResource folderArg folderKey noGeocode geo dnOf) s).cache)
      k = some e := by
  induction resources generalizing s with
  | nil => exact h
  | cons r rest ih =>
    exact ih _ (processResource_cache_stable folderArg folderKey noGeocode geo dnOf
      s r k e hfin h)

/-- C9: for a resource still lacking coordinates, when the cache misses (or
holds a non-finite entry) under the normalized `countryCode:cityKey`:
a successful geocode lookup stores `{lat, lng, city, countryCode}` in the
cache under that key, counts one geocode and adds no warning; a failed lookup
leaves the cache and count unchanged and records a warning; and a cache entry
with finite coordinates, once present, survives every remaining loop
iteration of the run unchanged. -/
theorem C9_geocode_cache_population :
    (∀ (geo : String → String → Option (ℚ × ℚ)) (cache : Cache) (geocoded : Nat)
      (warnings : List String) (countryCode city publicId : String)
      (lat0 lng0 : Option ℚ) (la lo : ℚ),
      (lat0.isSome && lng0.isSome) = false →
      (∀ e, aget cache (normalizeKey countryCode city) = some e →
        (e.lat.isSome && e.lng.isSome) = false) →
      geo city countryCode = some (la, lo) →
      (resolveCoords false geo cache geocoded warnings countryCode city publicId
          lat0 lng0).cache =
        aset cache (normalizeKey countryCode city) ⟨some la, some lo, some city, some countryCode⟩ ∧
      aget (resolveCoords false geo cache geocoded warnings countryCode city publicId
          lat0 lng0).cache (normalizeKey countryCode city) =
        some ⟨some la, some lo, some city, some countryCode⟩ ∧
      (resolveCoords false geo cache geocoded warnings countryCode city publicId
          lat0 lng0).lat = some la ∧
      (resolveCoords false geo cache geocoded warnings countryCode city publicId
          lat0 lng0).lng = some lo ∧
      (resolveCoords false geo cache geocoded warnings countryCode city publicId
          lat0 lng0).geocoded = geocoded + 1 ∧
      (resolveCoords false geo cache geocoded warnings countryCode city publicId
          lat0 lng0).warnings = warnings) ∧
    (∀ (geo : String → String → Option (ℚ × ℚ)) (cache : Cache) (geocoded : Nat)
      (warnings : List String) (countryCode city publicId : String)
      (lat0 lng0 : Option ℚ),
      (lat0.isSome && lng0.isSome) = false →
      (∀ e, aget cache (normalizeKey countryCode city) = some e →
        (e.lat.isSome && e.lng.isSome) = false) →
      geo city countryCode = none →
      (resolveCoords false geo cache geocoded warnings countryCode city publicId
          lat0 lng0).cache = cache ∧
      (resolveCoords false geo cache geocoded warnings countryCode city publicId
          lat0 lng0).geocoded = geocoded ∧
      (resolveCoords false geo cache geocoded warnings countryCode city publicId
          lat0 lng0).warnings =
        warnings ++ [geocodeFailWarning countryCode city publicId]) ∧
    (∀ (folderArg folderKey : String) (noGeocode : Bool)
      (geo : String → String → Option (ℚ × ℚ)) (dnOf : String → Option String)
      (resources : List Resource) (s : LoopState) (k : String) (e : CacheEntry),
      (e.lat.isSome && e.lng.isSome) = true →
      aget s.cache k = some e →
      aget ((resources.foldl (processResource folderArg folderKey noGeocode geo dnOf)
        s).cache) k = some e) := by
  have hbody : ∀ (geo : String → String → Option (ℚ × ℚ)) (cache : Cache) (geocoded : Nat)
      (warnings : List String) (countryCode city publicId : String)
      (lat0 lng0 : Option ℚ),
      (lat0.isSome && lng0.isSome) = false →
      (∀ e, aget cache (normalizeKey countryCode city) = some e →
        (e.lat.isSome && e.lng.isSome) = false) →
      resolveCoords false geo cache geocoded warnings countryCode city publicId
          lat0 lng0 =
        geocodeFallback geo cache geocoded warnings (normalizeKey countryCode city)
          countryCode city publicId lat0 lng0 := by
    intro geo cache geocoded warnings countryCode city publicId lat0 lng0 hmiss hnofin
    unfold resolveCoords
    rw [if_pos (by simp [hmiss])]
    dsimp only
    rcases hcached : aget cache (normalizeKey countryCode city) with _ | cached
    · simp only [hcached]
    · simp only [hcached]
      rw [if_neg (by simp [hnofin cached hcached])]
  refine ⟨?_, ?_, ?_⟩
  · intro geo cache geocoded warnings countryCode city publicId lat0 lng0 la lo
      hmiss hnofin hgeo
    rw [hbody geo cache geocoded warnings countryCode city publicId lat0 lng0 hmiss hnofin]
    unfold geocodeFallback
    rw [hgeo]
    exact ⟨rfl, aget_aset_self _ _ _, rfl, rfl, rfl, rfl⟩
  · intro geo cache geocoded warnings countryCode city publicId lat0 lng0
      hmiss hnofin hgeo
    rw [hbody geo cache geocoded warnings countryCode city publicId lat0 lng0 hmiss hnofin]
    unfold geocodeFallback
    rw [hgeo]
    exact ⟨rfl, rfl, rfl⟩
  · intro folderArg folderKey noGeocode geo dnOf resources s k e hfin h
    exact foldl_cache_stable folderArg folderKey noGeocode geo dnOf resources s k e hfin h

/-- C9 (witness): with an empty cache and a geocoder resolving (Paris, FR) to
(9, 5), the cache afterwards maps `FR:paris` to the stored entry. -/
theorem C9_witness :
    aget (resolveCoords false
      (fun city cc => if city = "Paris" ∧ cc = "FR" then some ((9 : ℚ), (5 : ℚ)) else none)
      [] 0 [] "FR" "Paris" "FR_Paris_x" none none).cache (normalizeKey "FR" "Paris") =
      some ⟨some 9, some 5, some "Paris", some "FR"⟩ :=
  (C9_geocode_cache_population.1
    (fun city cc => if city = "Paris" ∧ cc = "FR" then some ((9 : ℚ), (5 : ℚ)) else none)
    [] 0 [] "FR" "Paris" "FR_Paris_x" none none 9 5 (by decide)
    (by intro e he; cases he) (by decide)).2.1

/- ----------------------------------------------------------------- -/
/- C3: merge frame rule                                               -/
/- ----------------------------------------------------------------- -/

/-- C3 (counterexample): a registry point from batch "Other" matched by a
resource of batch "Countries" keeps every modeled field except
`sourceFolder`, which the merge unconditionally overwrites with the current
batch label — so not every field other than lat/lng is preserved. -/
theorem C3_counterexample :
    (reconcile [{ public_id := some "FR_Paris_abc" }]
      [RawEntry.obj { id := some "p1", city := some "Paris", countryCode := some "FR",
                      countryName := some "France", lat := some 1, lng := some 2,
                      postcardId := some "old", description := some "d",
                      sourceFolder := some "Other" }]
      [] "Countries" true false geoNone dnNone).points =
      [{ id := some "p1", city := some "Paris", countryCode := some "FR",
         countryName := some "France", lat := some 1, lng := some 2,
         postcardId := some "old", description := some "d",
         sourceFolder := some "Countries" }] := by decide

/-- C3 (amended): when a resource matches an existing point whose
`sourceFolder` key differs from the current batch key (or is blank), the
merge preserves `city`, `countryCode` (up to uppercasing), `countryName`,
`postcardId` and `description` whenever they are present and non-blank, fills
them from the fresh candidate otherwise, and always overwrites `id` with the
computed id and `sourceFolder` with the current batch label; only when the
matched point's non-blank `sourceFolder` key equals the current batch key are
`city`, `countryCode`, `countryName` and `postcardId` refreshed from the
freshly parsed candidate. -/
theorem C3_merge_frame (existing : Point) (folderKey folderArg : String)
    (id city countryCode : String) (countryName : Option String)
    (lat lng : Option ℚ) (publicId descFromMeta : String) :
    (¬(jsToLower (jsTrim (existing.sourceFolder.getD "")) ≠ "" ∧
        jsToLower (jsTrim (existing.sourceFolder.getD "")) = folderKey) →
      ((mergeExisting existing folderKey folderArg id city countryCode countryName
          lat lng publicId descFromMeta).city = some (jsOrStr existing.city city) ∧
       (mergeExisting existing folderKey folderArg id city countryCode countryName
          lat lng publicId descFromMeta).countryCode =
          some (jsToUpper (jsOrStr existing.countryCode countryCode)) ∧
       (mergeExisting existing folderKey folderArg id city countryCode countryName
          lat lng publicId descFromMeta).countryName =
          jsOr existing.countryName countryName ∧
       (mergeExisting existing folderKey folderArg id city countryCode countryName
          lat lng publicId descFromMeta).postcardId =
          some (jsOrStr existing.postcardId publicId) ∧
       (mergeExisting existing folderKey folderArg id city countryCode countryName
          lat lng publicId descFromMeta).description =
          jsOr existing.description
            (if descFromMeta ≠ "" then some descFromMeta else none) ∧
       (mergeExisting existing folderKey folderArg id city countryCode countryName
          lat lng publicId descFromMeta).id = some id ∧
       (mergeExisting existing folderKey folderArg id city countryCode countryName
          lat lng publicId descFromMeta).sourceFolder = some folderArg)) ∧
    ((jsToLower (jsTrim (existing.sourceFolder.getD "")) ≠ "" ∧
        jsToLower (jsTrim (existing.sourceFolder.getD "")) = folderKey) →
      ((mergeExisting existing folderKey folderArg id city countryCode countryName
          lat lng publicId descFromMeta).city = some city ∧
       (mergeExisting existing folderKey folderArg id city countryCode countryName
          lat lng publicId descFromMeta).countryCode = some (jsToUpper countryCode) ∧
       (mergeExisting existing folderKey folderArg id city countryCode countryName
          lat lng publicId descFromMeta).countryName =
          jsOr countryName existing.countryName ∧
       (mergeExisting existing folderKey folderArg id city countryCode countryName
          lat lng publicId descFromMeta).postcardId = some publicId ∧
       (mergeExisting existing folderKey folderArg id city countryCode countryName
          lat lng publicId descFromMeta).sourceFolder = some folderArg)) := by
  constructor
  · intro hne
    unfold mergeExisting
    simp [if_neg hne]
  · intro heq
    unfold mergeExisting
    simp [if_pos heq]

/-- C3 (witness): a cross-batch merge at concrete arguments preserves the
existing city. -/
theorem C3_witness :
    (mergeExisting { city := some "Lyon", sourceFolder := some "Other" } "countries"
      "Countries" "id1" "Paris" "FR" none (some 1) (some 2) "FR_Paris_x" "").city =
      some (jsOrStr (some "Lyon") "Paris") :=
  ((C3_merge_frame { city := some "Lyon", sourceFolder := some "Other" } "countries"
    "Countries" "id1" "Paris" "FR" none (some 1) (some 2) "FR_Paris_x" "").1
    (by decide)).1

/- ----------------------------------------------------------------- -/
/- C6: pruning                                                        -/
/- ----------------------------------------------------------------- -/

/-- The set of truthy resource identifiers accumulated by the loop
(source lines 254 and 258-261). -/
def truthyIds (resources : List Resource) : List String :=
  resources.foldl (fun acc r =>
    match r.public_id with
    | none => acc
    | some pid => if pid = "" then acc else addSet acc pid) []

theorem processResource_publicIds (folderArg folderKey : String) (noGeocode : Bool)
    (geo : String → String → Option (ℚ × ℚ)) (dnOf : String → Option String)
    (s : LoopState) (r : Resource) :
    (processResource folderArg folderKey noGeocode geo dnOf s r).publicIdsInFolder =
      match r.public_id with
      | none => s.publicIdsInFolder
      | some pid => if pid = "" then s.publicIdsInFolder
        else addSet s.publicIdsInFolder pid := by
  unfold processResource
  cases hr : r.public_id with
  | none => rfl
  | some pid =>
    dsimp only
    by_cases hpid : pid = ""
    · rw [if_pos hpid, if_pos hpid]
    · rw [if_neg hpid, if_neg hpid]
      cases hp : parsePlaceFromPublicId pid with
      | none => rfl
      | some parsed =>
        dsimp only
        split
        · rfl
        · split <;> rfl

theorem foldl_publicIds (folderArg folderKey : String) (noGeocode : Bool)
    (geo : String → String → Option (ℚ × ℚ)) (dnOf : String → Option String)
    (resources : List Resource) (s : LoopState) :
    (resources.foldl (processResource folderArg folderKey noGeocode geo dnOf)
      s).publicIdsInFolder =
      resources.foldl (fun acc r =>
        match r.public_id with
        | none => acc
        | some pid => if pid = "" then acc else addSet acc pid) s.publicIdsInFolder := by
  induction resources generalizing s with
  | nil => rfl
  | cons r rest ih =>
    rw [List.foldl_cons, List.foldl_cons, ih,
      processResource_publicIds folderArg folderKey noGeocode geo dnOf s r]

/-- C6: with pruning enabled, a point whose trimmed lowercased `sourceFolder`
equals the (non-blank) batch key and whose trimmed `postcardId` is non-empty
and not among the batch's truthy resource identifiers is removed from the
output; a same-batch point whose trimmed `postcardId` is empty always passes
both prune filters; with pruning disabled the output filters remove nothing. -/
theorem C6_pruning (resources : List Resource) (entries : List RawEntry) (cache : Cache)
    (folderArg : String) (noGeocode : Bool)
    (geo : String → String → Option (ℚ × ℚ)) (dnOf : String → Option String)
    (p : Point) :
    (jsToLower (jsTrim folderArg) ≠ "" →
      jsToLower (jsTrim (p.sourceFolder.getD "")) = jsToLower (jsTrim folderArg) →
      jsTrim (p.postcardId.getD "") ≠ "" →
      (truthyIds resources).contains (jsTrim (p.postcardId.getD "")) = false →
      p ∉ (reconcile resources entries cache folderArg noGeocode true geo dnOf).points) ∧
    (∀ (prune : Bool) (publicIds : List String) (ix : Indexes),
      p ∈ ix.byId.map Prod.snd →
      jsToLower (jsTrim (p.sourceFolder.getD "")) = jsToLower (jsTrim folderArg) →
      jsToLower (jsTrim folderArg) ≠ "" →
      jsTrim (p.postcardId.getD "") = "" →
      p ∈ finalOut prune (jsToLower (jsTrim folderArg)) publicIds ix) ∧
    (∀ (folderKey : String) (publicIds : List String) (ix : Indexes),
      finalOut false folderKey publicIds ix = ix.byId.map Prod.snd) := by
  refine ⟨?_, ?_, ?_⟩
  · intro hfk hsrc hpid hmem hin
    have hpts : (reconcile resources entries cache folderArg noGeocode true geo dnOf).points =
        finalOut true (jsToLower (jsTrim folderArg)) (truthyIds resources)
          ((resources.foldl (processResource folderArg (jsToLower (jsTrim folderArg))
            noGeocode geo dnOf)
            { ix := entries.foldl (indexEntry (jsToLower (jsTrim folderArg))) {},
              cache := cache }).ix) := by
      unfold reconcile
      dsimp only
      rw [foldl_publicIds]
      rfl
    rw [hpts] at hin
    unfold finalOut at hin
    have hin2 := List.mem_of_mem_filter hin
    have hkeep := List.of_mem_filter hin2
    have hkp : keepPrune true (jsToLower (jsTrim folderArg)) (truthyIds resources) p = false := by
      unfold keepPrune
      rw [if_neg (by simp)]
      rw [if_neg (by
        push_neg
        exact ⟨by rw [hsrc]; exact hfk, by rw [hsrc]⟩)]
      rw [if_neg hpid]
      exact hmem
    rw [hkp] at hkeep
    cases hkeep
  · intro prune publicIds ix hmem hsrc hfk hpid
    unfold finalOut
    apply List.mem_filter.mpr
    constructor
    · apply List.mem_filter.mpr
      constructor
      · simpa using hmem
      · unfold keepPrune
        by_cases hp : (!prune) = true
        · rw [if_pos hp]
        · rw [if_neg hp]
          rw [if_neg (by
            push_neg
            exact ⟨by rw [hsrc]; exact hfk, by rw [hsrc]⟩)]
          rw [if_pos hpid]
    · unfold keepLegacy
      by_cases hp : (!prune) = true
      · rw [if_pos hp]
      · rw [if_neg hp]
        rw [if_pos (by rw [hsrc]; exact hfk)]
  · intro folderKey publicIds ix
    unfold finalOut keepPrune keepLegacy
    simp

/-- A concrete stale auto-point used to witness the prune filter. -/
def stalePoint : Point :=
  { id := some "fr-paris", city := some "Paris", countryCode := some "FR",
    lat := some 1, lng := some 2, postcardId := some "FR_Paris_old",
    sourceFolder := some "Countries" }

/-- C6 (witness): with pruning enabled, a "Countries" point whose postcardId
no longer appears in the (empty) batch is removed from the output. -/
theorem C6_witness :
    stalePoint ∉
      (reconcile [] [RawEntry.obj stalePoint] [] "Countries" false true geoNone dnNone).points :=
  (C6_pruning [] [RawEntry.obj stalePoint] [] "Countries" false geoNone dnNone stalePoint).1
    (by decide) (by decide) (by decide) (by decide)

/- ----------------------------------------------------------------- -/
/- Invariants of the byId map (shared by the output-shape claims)     -/
/- ----------------------------------------------------------------- -/

theorem mem_aset {α : Type} (m : List (String × α)) (k : String) (v : α) :
    ∀ kv ∈ aset m k v, kv = (k, v) ∨ kv ∈ m := by
  intro kv hkv
  unfold aset at hkv
  by_cases h : (m.any (fun e => e.1 == k)) = true
  · rw [if_pos h] at hkv
    rcases List.mem_map.mp hkv with ⟨e, he, heq⟩
    by_cases hek : (e.1 == k) = true
    · rw [if_pos hek] at heq
      exact Or.inl heq.symm
    · rw [if_neg hek] at heq
      exact Or.inr (heq ▸ he)
  · rw [if_neg h] at hkv
    rcases List.mem_append.mp hkv with hkv | hkv
    · exact Or.inr hkv
    · exact Or.inl (List.mem_singleton.mp hkv)

theorem aset_forall {α : Type} (P : String × α → Prop) (m : List (String × α))
    (k : String) (v : α) (hm : ∀ kv ∈ m, P kv) (hkv : P (k, v)) :
    ∀ kv ∈ aset m k v, P kv := by
  intro kv h
  rcases mem_aset m k v kv h with h | h
  · exact h ▸ hkv
  · exact hm kv h

theorem keys_aset_mem {α : Type} (m : List (String × α)) (k : String) (v : α)
    (h : (m.any (fun e => e.1 == k)) = true) :
    (aset m k v).map Prod.fst = m.map Prod.fst := by
  unfold aset
  rw [if_pos h, List.map_map]
  apply List.map_congr_left
  intro e he
  by_cases hek : (e.1 == k) = true
  · simp only [Function.comp_apply, if_pos hek]
    exact (beq_iff_eq.mp hek).symm
  · simp only [Function.comp_apply, if_neg hek]

theorem keys_aset_not_mem {α : Type} (m : List (String × α)) (k : String) (v : α)
    (h : ¬ (m.any (fun e => e.1 == k)) = true) :
    (aset m k v).map Prod.fst = m.map Prod.fst ++ [k] := by
  unfold aset
  rw [if_neg h, List.map_append]
  rfl

theorem aset_keys_nodup {α : Type} (m : List (String × α)) (k : String) (v : α)
    (h : (m.map Prod.fst).Nodup) : ((aset m k v).map Prod.fst).Nodup := by
  by_cases hmem : (m.any (fun e => e.1 == k)) = true
  · rw [keys_aset_mem m k v hmem]
    exact h
  · rw [keys_aset_not_mem m k v hmem]
    apply List.Nodup.append h (List.nodup_singleton k)
    intro a ha hak
    rw [List.mem_singleton] at hak
    exact hmem ((any_key_iff m k).mpr (hak ▸ ha))

/-- The `byId` map after one index-building iteration (only the `id`
branch of source lines 233-234 touches it). -/
theorem indexEntry_byId (folderKey : String) (ix : Indexes) (e : RawEntry) :
    (indexEntry folderKey ix e).byId =
      match e with
      | .nonObj => ix.byId
      | .obj p =>
        match p.id with
        | some s => if s ≠ "" then aset ix.byId s p else ix.byId
        | none => ix.byId := by
  unfold indexEntry
  cases e with
  | nonObj => rfl
  | obj p =>
    dsimp only
    cases p.id with
    | none => cases p.postcardId <;> dsimp only <;> split_ifs <;> rfl
    | some s => cases p.postcardId <;> dsimp only <;> split_ifs <;> rfl

/-- The invariant carried by every `byId` entry: its value's `id` field is its
key, and the value is either an input registry object (indexed under its own
non-empty id) or a point written by this batch's loop, which always has
finite coordinates and `sourceFolder` equal to the batch label. -/
def goodEntry (entries : List RawEntry) (folderArg : String) (kv : String × Point) : Prop :=
  kv.2.id = some kv.1 ∧
  ((RawEntry.obj kv.2 ∈ entries ∧ kv.1 ≠ "") ∨
   (kv.2.lat.isSome = true ∧ kv.2.lng.isSome = true ∧ kv.2.sourceFolder = some folderArg))

theorem indexEntry_goodEntry (entries : List RawEntry) (folderArg folderKey : String)
    (ix : Indexes) (e : RawEntry) (he : e ∈ entries)
    (h1 : ∀ kv ∈ ix.byId, goodEntry entries folderArg kv)
    (h2 : (ix.byId.map Prod.fst).Nodup) :
    (∀ kv ∈ (indexEntry folderKey ix e).byId, goodEntry entries folderArg kv) ∧
    ((indexEntry folderKey ix e).byId.map Prod.fst).Nodup := by
  rw [indexEntry_byId]
  cases e with
  | nonObj => exact ⟨h1, h2⟩
  | obj p =>
    dsimp only
    cases hid : p.id with
    | none => exact ⟨h1, h2⟩
    | some s =>
      dsimp only
      by_cases hs : s ≠ ""
      · rw [if_pos hs]
        refine ⟨aset_forall _ _ _ _ h1 ⟨hid, Or.inl ⟨he, hs⟩⟩, aset_keys_nodup _ _ _ h2⟩
      · rw [if_neg hs]
        exact ⟨h1, h2⟩

theorem foldl_indexEntry_goodEntry (entries : List RawEntry) (folderArg folderKey : String) :
    (∀ kv ∈ (entries.foldl (indexEntry folderKey) {}).byId, goodEntry entries folderArg kv) ∧
    (((entries.foldl (indexEntry folderKey) {}).byId.map Prod.fst)).Nodup := by
  suffices h : ∀ (rest : List RawEntry) (ix : Indexes),
      (∀ e ∈ rest, e ∈ entries) →
      (∀ kv ∈ ix.byId, goodEntry entries folderArg kv) →
      (ix.byId.map Prod.fst).Nodup →
      (∀ kv ∈ (rest.foldl (indexEntry folderKey) ix).byId, goodEntry entries folderArg kv) ∧
      (((rest.foldl (indexEntry folderKey) ix).byId.map Prod.fst)).Nodup by
    exact h entries {} (fun e he => he) (by intro kv h; cases h) (by simp)
  intro rest
  induction rest with
  | nil => intro ix _ h1 h2; exact ⟨h1, h2⟩
  | cons e rest2 ih =>
    intro ix hsub h1 h2
    have he : e ∈ entries := hsub e (List.mem_cons_self e rest2)
    have step := indexEntry_goodEntry entries folderArg folderKey ix e he h1 h2
    exact ih _ (fun x hx => hsub x (List.mem_cons_of_mem e hx)) step.1 step.2

theorem processResource_goodEntry (entries : List RawEntry) (folderArg folderKey : String)
    (noGeocode : Bool) (geo : String → String → Option (ℚ × ℚ))
    (dnOf : String → Option String) (s : LoopState) (r : Resource)
    (h1 : ∀ kv ∈ s.ix.byId, goodEntry entries folderArg kv)
    (h2 : (s.ix.byId.map Prod.fst).Nodup) :
    (∀ kv ∈ (processResource folderArg folderKey noGeocode geo dnOf s r).ix.byId,
      goodEntry entries folderArg kv) ∧
    (((processResource folderArg folderKey noGeocode geo dnOf s r).ix.byId.map
      Prod.fst)).Nodup := by
  unfold processResource
  cases hr : r.public_id with
  | none => exact ⟨h1, h2⟩
  | some publicId =>
    dsimp only
    by_cases hpid : publicId = ""
    · rw [if_pos hpid]
      exact ⟨h1, h2⟩
    · rw [if_neg hpid]
      cases hp : parsePlaceFromPublicId publicId with
      | none => exact ⟨h1, h2⟩
      | some parsed =>
        dsimp only
        split
        · exact ⟨h1, h2⟩
        · next hgate =>
          simp only [Bool.not_eq_true, Bool.not_eq_false_eq_eq_true,
            Bool.and_eq_true] at hgate
          split
          · next epoint heq =>
            exact ⟨aset_forall _ _ _ _ h1 ⟨rfl, Or.inr ⟨hgate.1, hgate.2, rfl⟩⟩,
              aset_keys_nodup _ _ _ h2⟩
          · exact ⟨aset_forall _ _ _ _ h1 ⟨rfl, Or.inr ⟨hgate.1, hgate.2, rfl⟩⟩,
              aset_keys_nodup _ _ _ h2⟩

theorem foldl_processResource_goodEntry (entries : List RawEntry)
    (folderArg folderKey : String) (noGeocode : Bool)
    (geo : String → String → Option (ℚ × ℚ)) (dnOf : String → Option String)
    (resources : List Resource) (s : LoopState)
    (h1 : ∀ kv ∈ s.ix.byId, goodEntry entries folderArg kv)
    (h2 : (s.ix.byId.map Prod.fst).Nodup) :
    (∀ kv ∈ ((resources.foldl (processResource folderArg folderKey noGeocode geo dnOf)
      s).ix.byId), goodEntry entries folderArg kv) ∧
    ((((resources.foldl (processResource folderArg folderKey noGeocode geo dnOf)
      s).ix.byId).map Prod.fst)).Nodup := by
  induction resources generalizing s with
  | nil => exact ⟨h1, h2⟩
  | cons r rest ih =>
    have step := processResource_goodEntry entries folderArg folderKey noGeocode geo dnOf
      s r h1 h2
    exact ih _ step.1 step.2

/-- Every point of the final output comes from the final `byId` map, so it
carries the `goodEntry` invariant, and the output ids (which are the map
keys) are pairwise distinct. -/
theorem reconcile_points_goodEntry (resources : List Resource) (entries : List RawEntry)
    (cache : Cache) (folderArg : String) (noGeocode prune : Bool)
    (geo : String → String → Option (ℚ × ℚ)) (dnOf : String → Option String) :
    (∀ p ∈ (reconcile resources entries cache folderArg noGeocode prune geo dnOf).points,
      ∃ k, p.id = some k ∧
        ((RawEntry.obj p ∈ entries ∧ k ≠ "") ∨
         (p.lat.isSome = true ∧ p.lng.isSome = true ∧ p.sourceFolder = some folderArg))) ∧
    (((reconcile resources entries cache folderArg noGeocode prune geo dnOf).points.map
      Point.id)).Nodup := by
  have hinit := foldl_indexEntry_goodEntry entries folderArg (jsToLower (jsTrim folderArg))
  have hfin := foldl_processResource_goodEntry entries folderArg
    (jsToLower (jsTrim folderArg)) noGeocode geo dnOf resources
    { ix := entries.foldl (indexEntry (jsToLower (jsTrim folderArg))) {}, cache := cache }
    hinit.1 hinit.2
  have hpts : (reconcile resources entries cache folderArg noGeocode prune geo dnOf).points =
      finalOut prune (jsToLower (jsTrim folderArg))
        ((resources.foldl (processResource folderArg (jsToLower (jsTrim folderArg))
          noGeocode geo dnOf)
          { ix := entries.foldl (indexEntry (jsToLower (jsTrim folderArg))) {},
            cache := cache }).publicIdsInFolder)
        ((resources.foldl (processResource folderArg (jsToLower (jsTrim folderArg))
          noGeocode geo dnOf)
          { ix := entries.foldl (indexEntry (jsToLower (jsTrim folderArg))) {},
            cache := cache }).ix) := rfl
  rw [hpts]
  set m := (resources.foldl (processResource folderArg (jsToLower (jsTrim folderArg))
    noGeocode geo dnOf)
    { ix := entries.foldl (indexEntry (jsToLower (jsTrim folderArg))) {},
      cache := cache }).ix with hm
  constructor
  · intro p hp
    unfold finalOut at hp
    have hp1 := List.mem_of_mem_filter hp
    have hp2 := List.mem_of_mem_filter hp1
    have hp3 := List.mem_of_mem_filter hp2
    rcases List.mem_map.mp hp3 with ⟨kv, hkv, rfl⟩
    rcases hfin.1 kv hkv with ⟨hid, hdisj⟩
    exact ⟨kv.1, hid, hdisj⟩
  · have hsub : List.Sublist
        (finalOut prune (jsToLower (jsTrim folderArg))
          ((resources.foldl (processResource folderArg (jsToLower (jsTrim folderArg))
            noGeocode geo dnOf)
            { ix := entries.foldl (indexEntry (jsToLower (jsTrim folderArg))) {},
              cache := cache }).publicIdsInFolder) m)
        (m.byId.map Prod.snd) := by
      unfold finalOut
      exact ((List.filter_sublist _).trans (List.filter_sublist _)).trans
        (List.filter_sublist _)
    apply List.Nodup.sublist (hsub.map Point.id)
    have hmap : (m.byId.map Prod.snd).map Point.id = (m.byId.map Prod.fst).map some := by
      rw [List.map_map, List.map_map]
      apply List.map_congr_left
      intro kv hkv
      exact (hfin.1 kv hkv).1
    rw [hmap]
    exact hfin.2.map (Option.some_injective String)

/- ----------------------------------------------------------------- -/
/- C2: finite coordinates in the output                               -/
/- ----------------------------------------------------------------- -/

/-- A registry entry with no coordinates, untouched by any batch. -/
def coordlessPoint : Point :=
  { id := some "x", city := some "Q", countryCode := some "XX",
    sourceFolder := some "Other" }

/-- C2 (counterexample): a pre-existing registry entry without finite
coordinates that no batch resource touches is NOT dropped before the final
write — it survives into the output (even with pruning enabled), its `lat`
still missing. -/
theorem C2_counterexample :
    (reconcile [] [RawEntry.obj coordlessPoint] [] "Countries" false true
      geoNone dnNone).points = [coordlessPoint] ∧
    coordlessPoint.lat = none := by
  constructor
  · decide
  · rfl

/-- C2 (amended): every point in the reconciler's output either is one of the
input registry objects, carried through unchanged, or has finite numeric
lat and lng; in particular every point created or updated from a batch
resource has finite coordinates (a resource whose coordinates cannot be
resolved is skipped and emits nothing), but a pre-existing entry untouched by
the batch is not subjected to any coordinate check. -/
theorem C2_output_coords (resources : List Resource) (entries : List RawEntry)
    (cache : Cache) (folderArg : String) (noGeocode prune : Bool)
    (geo : String → String → Option (ℚ × ℚ)) (dnOf : String → Option String)
    (p : Point)
    (hp : p ∈ (reconcile resources entries cache folderArg noGeocode prune geo dnOf).points) :
    RawEntry.obj p ∈ entries ∨ (p.lat.isSome = true ∧ p.lng.isSome = true) := by
  rcases (reconcile_points_goodEntry resources entries cache folderArg noGeocode prune
    geo dnOf).1 p hp with ⟨k, _, hdisj⟩
  rcases hdisj with ⟨hmem, _⟩ | ⟨hlat, hlng, _⟩
  · exact Or.inl hmem
  · exact Or.inr ⟨hlat, hlng⟩

/-- C2 (witness): in the run of the counterexample input, the surviving point
is an input registry object. -/
theorem C2_witness :
    RawEntry.obj coordlessPoint ∈ [RawEntry.obj coordlessPoint] ∨
      (coordlessPoint.lat.isSome = true ∧ coordlessPoint.lng.isSome = true) :=
  C2_output_coords [] [RawEntry.obj coordlessPoint] [] "Countries" false true
    geoNone dnNone coordlessPoint (by decide)

/- ----------------------------------------------------------------- -/
/- C10: output ids                                                    -/
/- ----------------------------------------------------------------- -/

/-- A registry entry whose id is the empty string but which is reachable
through the `postcardId` index. -/
def emptyIdPoint : Point :=
  { id := some "", city := some "Paris", countryCode := some "FR",
    lat := some 1, lng := some 2, postcardId := some "FR_Paris_x",
    sourceFolder := some "Other" }

/-- C10 (counterexample): an input entry with an empty-string id, matched via
`postcardId` by a batch resource, is merged and stored under the empty key,
so the output contains a point whose id is the empty string — contradicting
the claim that every output point has a non-empty id. -/
theorem C10_counterexample :
    ((reconcile [{ public_id := some "FR_Paris_x" }] [RawEntry.obj emptyIdPoint]
      [] "Countries" true false geoNone dnNone).points.map Point.id) = [some ""] := by
  decide

/-- C10 (amended): every point in the reconciler's output has a string id
(possibly empty) and the output ids are pairwise distinct; every output point
either is an input registry object stored under its own non-empty id, or was
created/updated by the batch loop and carries `sourceFolder = batch label` —
so a non-object input entry, or an object entry without a non-empty string
id, never reaches the output unless a batch resource matched it through
another index, in which case the merged point is batch-stamped (and may
inherit an empty id). -/
theorem C10_output_ids (resources : List Resource) (entries : List RawEntry)
    (cache : Cache) (folderArg : String) (noGeocode prune : Bool)
    (geo : String → String → Option (ℚ × ℚ)) (dnOf : String → Option String) :
    (∀ p ∈ (reconcile resources entries cache folderArg noGeocode prune geo dnOf).points,
      ∃ k, p.id = some k ∧
        ((RawEntry.obj p ∈ entries ∧ k ≠ "") ∨ p.sourceFolder = some folderArg)) ∧
    (((reconcile resources entries cache folderArg noGeocode prune geo dnOf).points.map
      Point.id)).Nodup := by
  have h := reconcile_points_goodEntry resources entries cache folderArg noGeocode prune
    geo dnOf
  refine ⟨?_, h.2⟩
  intro p hp
  rcases h.1 p hp with ⟨k, hid, hdisj⟩
  rcases hdisj with ⟨hmem, hne⟩ | ⟨_, _, hsrc⟩
  · exact ⟨k, hid, Or.inl ⟨hmem, hne⟩⟩
  · exact ⟨k, hid, Or.inr hsrc⟩

/-- C10 (witness): the amended statement applied to the counterexample run —
the empty-id output point is batch-stamped. -/
theorem C10_witness :
    ∃ k, (mergeExisting emptyIdPoint "countries" "Countries" "" "Paris" "FR" none
      (some 1) (some 2) "FR_Paris_x" "").id = some k ∧
      ((RawEntry.obj (mergeExisting emptyIdPoint "countries" "Countries" "" "Paris" "FR" none
        (some 1) (some 2) "FR_Paris_x" "") ∈ [RawEntry.obj emptyIdPoint] ∧ k ≠ "") ∨
       (mergeExisting emptyIdPoint "countries" "Countries" "" "Paris" "FR" none
        (some 1) (some 2) "FR_Paris_x" "").sourceFolder = some "Countries") :=
  (C10_output_ids [{ public_id := some "FR_Paris_x" }] [RawEntry.obj emptyIdPoint]
    [] "Countries" true false geoNone dnNone).1
    (mergeExisting emptyIdPoint "countries" "Countries" "" "Paris" "FR" none
      (some 1) (some 2) "FR_Paris_x" "") (by decide)

/- ----------------------------------------------------------------- -/
/- Further JS Map / Set lemmas (towards idempotence)                  -/
/- ----------------------------------------------------------------- -/

theorem mem_of_aget {α : Type} (m : List (String × α)) (k : String) (v : α)
    (h : aget m k = some v) : (k, v) ∈ m := by
  induction m with
  | nil => cases h
  | cons e rest ih =>
    obtain ⟨k0, v0⟩ := e
    rw [aget_cons] at h
    by_cases he : k0 = k
    · subst he
      rw [if_pos rfl] at h
      injection h with h
      subst h
      exact List.mem_cons_self _ _
    · rw [if_neg he] at h
      exact List.mem_cons_of_mem _ (ih h)

theorem aget_isSome_of_mem {α : Type} (m : List (String × α)) (kv : String × α)
    (h : kv ∈ m) : (aget m kv.1).isSome = true := by
  induction m with
  | nil => cases h
  | cons e rest ih =>
    rw [aget_cons]
    by_cases he : e.1 = kv.1
    · rw [if_pos he]
      rfl
    · rw [if_neg he]
      rcases List.mem_cons.mp h with h | h
      · exact absurd (h ▸ rfl) he
      · exact ih h

theorem mem_aset_self {α : Type} (m : List (String × α)) (k : String) (v : α) :
    (k, v) ∈ aset m k v :=
  mem_of_aget _ _ _ (aget_aset_self m k v)

theorem mem_aset_of_ne {α : Type} (m : List (String × α)) (k : String) (v : α)
    (kv : String × α) (h : kv ∈ m) (hne : kv.1 ≠ k) : kv ∈ aset m k v := by
  unfold aset
  by_cases hmem : (m.any (fun e => e.1 == k)) = true
  · rw [if_pos hmem]
    apply List.mem_map.mpr
    refine ⟨kv, h, ?_⟩
    rw [if_neg (by simp [hne])]
  · rw [if_neg hmem]
    exact List.mem_append_left _ h

theorem aget_isSome_aset_mono {α : Type} (m : List (String × α)) (k k' : String) (v : α)
    (h : (aget m k).isSome = true) : (aget (aset m k' v) k).isSome = true := by
  by_cases hk : k = k'
  · subst hk
    rw [aget_aset_self]
    rfl
  · rw [aget_aset_ne m k' k v hk]
    exact h

theorem jsOr_eq_some {α : Type} (a b : Option α) (x : α) (h : jsOr a b = some x) :
    a = some x ∨ b = some x := by
  cases a with
  | none => exact Or.inr h
  | some y => exact Or.inl h

theorem mem_addSet_self (s : List String) (x : String) : x ∈ addSet s x := by
  unfold addSet
  by_cases h : s.contains x = true
  · rw [if_pos h]
    exact List.elem_iff.mp h
  · rw [if_neg h]
    exact List.mem_append_right _ (List.mem_singleton.mpr rfl)

theorem mem_addSet_mono (s : List String) (x y : String) (h : y ∈ s) : y ∈ addSet s x := by
  unfold addSet
  by_cases hc : s.contains x = true
  · rw [if_pos hc]
    exact h
  · rw [if_neg hc]
    exact List.mem_append_left _ h

/- ----------------------------------------------------------------- -/
/- Character and string lemmas (towards idempotence)                  -/
/- ----------------------------------------------------------------- -/

theorem charToNat_ofNat (n : Nat) (h : n < 0xd800) : (Char.ofNat n).toNat = n := by
  rw [Char.ofNat, dif_pos (Or.inl h)]
  simp [Char.ofNatAux, Char.toNat, UInt32.toNat, UInt32.ofNat', BitVec.toNat_ofNatLt]

theorem charIsUpper_toNat (c : Char) (h : c.isUpper = true) :
    65 ≤ c.toNat ∧ c.toNat ≤ 90 := by
  simp only [Char.isUpper, ge_iff_le, Bool.and_eq_true, decide_eq_true_eq,
    UInt32.le_def] at h
  exact h

theorem charToUpper_fixed (c : Char) (h : c.isUpper = true) : c.toUpper = c := by
  have hn := charIsUpper_toNat c h
  unfold Char.toUpper
  rw [if_neg (by omega)]

theorem charToLower_upper (c : Char) (h : c.isUpper = true) :
    c.toLower = Char.ofNat (c.toNat + 32) := by
  have hn := charIsUpper_toNat c h
  unfold Char.toLower
  rw [if_pos (by omega)]

theorem charToLower_inj_upper (c₁ c₂ : Char) (h1 : c₁.isUpper = true)
    (h2 : c₂.isUpper = true) (h : c₁.toLower = c₂.toLower) : c₁ = c₂ := by
  have hn1 := charIsUpper_toNat c₁ h1
  have hn2 := charIsUpper_toNat c₂ h2
  rw [charToLower_upper c₁ h1, charToLower_upper c₂ h2] at h
  have ht : c₁.toNat + 32 = c₂.toNat + 32 := by
    have e1 := charToNat_ofNat (c₁.toNat + 32) (by omega)
    have e2 := charToNat_ofNat (c₂.toNat + 32) (by omega)
    rw [← e1, ← e2, h]
  have hv : Char.ofNat c₁.toNat = Char.ofNat c₂.toNat := by
    rw [show c₁.toNat = c₂.toNat by omega]
  rw [Char.ofNat_toNat, Char.ofNat_toNat] at hv
  exact hv

theorem charIsUpper_not_ws (c : Char) (h : c.isUpper = true) :
    c.isWhitespace = false := by
  have hn := charIsUpper_toNat c h
  simp only [Char.isWhitespace, Bool.or_eq_false_iff, decide_eq_false_iff_not]
  refine ⟨⟨⟨?_, ?_⟩, ?_⟩, ?_⟩ <;>
    (intro hc; rw [hc] at hn; revert hn; decide)

theorem map_fixed {f : Char → Char} (l : List Char) (h : ∀ c ∈ l, f c = c) :
    l.map f = l := by
  induction l with
  | nil => rfl
  | cons c rest ih =>
    rw [List.map_cons, h c (List.mem_cons_self c rest),
      ih (fun x hx => h x (List.mem_cons_of_mem c hx))]

theorem dropWhile_false_eq_self (p : Char → Bool) (l : List Char)
    (h : ∀ c ∈ l, p c = false) : l.dropWhile p = l := by
  cases l with
  | nil => rfl
  | cons c rest =>
    rw [List.dropWhile_cons, if_neg (by simp [h c (List.mem_cons_self c rest)])]

theorem isTwoUpper_len (s : String) (h : isTwoUpper s = true) : s.data.length = 2 := by
  simp only [isTwoUpper, Bool.and_eq_true, beq_iff_eq] at h
  exact h.1

theorem isTwoUpper_all (s : String) (h : isTwoUpper s = true) :
    ∀ c ∈ s.data, c.isUpper = true := by
  simp only [isTwoUpper, Bool.and_eq_true, List.all_eq_true] at h
  exact h.2

theorem isTwoUpper_ne_empty (s : String) (h : isTwoUpper s = true) : s ≠ "" := by
  intro he
  have := isTwoUpper_len s h
  rw [he] at this
  cases this

theorem jsToUpper_fixed (s : String) (h : isTwoUpper s = true) : jsToUpper s = s := by
  unfold jsToUpper
  rw [map_fixed s.data (fun c hc => charToUpper_fixed c (isTwoUpper_all s h c hc))]

theorem jsTrim_fixed_upper (s : String) (h : isTwoUpper s = true) : jsTrim s = s := by
  unfold jsTrim jsTrimL
  rw [dropWhile_false_eq_self _ _ (fun c hc => charIsUpper_not_ws c (isTwoUpper_all s h c hc))]
  rw [dropWhile_false_eq_self _ _ (fun c hc =>
    charIsUpper_not_ws c (isTwoUpper_all s h c (List.mem_reverse.mp hc)))]
  rw [List.reverse_reverse]

theorem dropWhile_idem (p : Char → Bool) (l : List Char) :
    (l.dropWhile p).dropWhile p = l.dropWhile p := by
  induction l with
  | nil => rfl
  | cons c rest ih =>
    rw [List.dropWhile_cons]
    by_cases hc : p c = true
    · rw [if_pos hc]
      exact ih
    · rw [if_neg hc, List.dropWhile_cons, if_neg hc]

theorem dropWhile_eq_self_of_prefix (p : Char → Bool) (A B : List Char)
    (hpre : B <+: A) (hA : A.dropWhile p = A) : B.dropWhile p = B := by
  cases B with
  | nil => rfl
  | cons b B2 =>
    rcases hpre with ⟨t, ht⟩
    rw [← ht, List.cons_append, List.dropWhile_cons] at hA
    by_cases hb : p b = true
    · rw [if_pos hb] at hA
      have hle : (List.dropWhile p (B2 ++ t)).length ≤ (B2 ++ t).length :=
        (List.dropWhile_sublist p).length_le
      rw [hA] at hle
      simp at hle
    · rw [List.dropWhile_cons, if_neg hb]

theorem jsTrimL_idem (l : List Char) : jsTrimL (jsTrimL l) = jsTrimL l := by
  unfold jsTrimL
  set w := @Char.isWhitespace
  set A := l.dropWhile w with hA
  have fA : A.dropWhile w = A := dropWhile_idem w l
  set B := ((A.reverse.dropWhile w).reverse : List Char) with hB
  have hBrev : B.reverse = A.reverse.dropWhile w := by
    rw [hB, List.reverse_reverse]
  have hBpre : B <+: A := by
    have hsuf : B.reverse <:+ A.reverse := by
      rw [hBrev]
      exact List.dropWhile_suffix w
    have h2 := List.reverse_prefix.mpr hsuf
    simpa using h2
  have hBfix : B.dropWhile w = B := dropWhile_eq_self_of_prefix w A B hBpre fA
  rw [hBfix, hBrev, dropWhile_idem]

theorem jsTrim_of_trimmed (s : String) (X : List Char) (h : s.data = jsTrimL X) :
    jsTrim s = s := by
  unfold jsTrim
  rw [h, jsTrimL_idem]
  cases s with
  | mk d => simp at h; rw [h]

theorem stringDataInj (s₁ s₂ : String) (h : s₁.data = s₂.data) : s₁ = s₂ := by
  cases s₁
  cases s₂
  exact congrArg String.mk h

theorem ccCityKey_inj (cc₁ cc₂ ci₁ ci₂ : String) (h1 : isTwoUpper cc₁ = true)
    (h2 : isTwoUpper cc₂ = true) (h : ccCityKey cc₁ ci₁ = ccCityKey cc₂ ci₂) :
    cc₁ = cc₂ ∧ slugify ci₁ = slugify ci₂ := by
  unfold ccCityKey at h
  have hd : cc₁.data ++ ':' :: (slugify ci₁).data = cc₂.data ++ ':' :: (slugify ci₂).data := by
    injection h
  have hlen : cc₁.data.length = cc₂.data.length := by
    rw [isTwoUpper_len _ h1, isTwoUpper_len _ h2]
  have hsplit := List.append_inj hd hlen
  constructor
  · exact stringDataInj _ _ hsplit.1
  · have := hsplit.2
    injection this with _ htail
    exact stringDataInj _ _ htail

theorem ccCityKey_congr_slug (cc ci₁ ci₂ : String) (h : slugify ci₁ = slugify ci₂) :
    ccCityKey cc ci₁ = ccCityKey cc ci₂ := by
  unfold ccCityKey
  rw [h]

theorem toTravelPointId_congr_slug (cc ci₁ ci₂ : String) (h : slugify ci₁ = slugify ci₂) :
    toTravelPointId cc ci₁ = toTravelPointId cc ci₂ := by
  unfold toTravelPointId
  rw [h]

theorem toTravelPointId_inj (cc₁ cc₂ ci₁ ci₂ : String) (h1 : isTwoUpper cc₁ = true)
    (h2 : isTwoUpper cc₂ = true)
    (h : toTravelPointId cc₁ ci₁ = toTravelPointId cc₂ ci₂) :
    cc₁ = cc₂ ∧ slugify ci₁ = slugify ci₂ := by
  unfold toTravelPointId jsToLower at h
  have hd : cc₁.data.map Char.toLower ++ '-' :: (slugify ci₁).data =
      cc₂.data.map Char.toLower ++ '-' :: (slugify ci₂).data := by
    injection h
  have hlen : (cc₁.data.map Char.toLower).length = (cc₂.data.map Char.toLower).length := by
    rw [List.length_map, List.length_map, isTwoUpper_len _ h1, isTwoUpper_len _ h2]
  have hsplit := List.append_inj hd hlen
  constructor
  · rcases List.length_eq_two.mp (isTwoUpper_len _ h1) with ⟨a₁, b₁, hab₁⟩
    rcases List.length_eq_two.mp (isTwoUpper_len _ h2) with ⟨a₂, b₂, hab₂⟩
    have hmap := hsplit.1
    rw [hab₁, hab₂] at hmap
    simp only [List.map_cons, List.map_nil, List.cons.injEq, and_true] at hmap
    have ha := charToLower_inj_upper a₁ a₂
      (isTwoUpper_all _ h1 a₁ (by rw [hab₁]; simp))
      (isTwoUpper_all _ h2 a₂ (by rw [hab₂]; simp)) hmap.1
    have hb := charToLower_inj_upper b₁ b₂
      (isTwoUpper_all _ h1 b₁ (by rw [hab₁]; simp))
      (isTwoUpper_all _ h2 b₂ (by rw [hab₂]; simp)) hmap.2
    apply stringDataInj
    rw [hab₁, hab₂, ha, hb]
  · have := hsplit.2
    injection this with _ htail
    exact stringDataInj _ _ htail

theorem toTravelPointId_ne_empty (cc ci : String) : toTravelPointId cc ci ≠ "" := by
  intro h
  unfold toTravelPointId at h
  have hd := congrArg String.data h
  simp at hd

theorem parse_facts (pid : String) (pc : PlaceCandidate)
    (h : parsePlaceFromPublicId pid = some pc) :
    isTwoUpper pc.countryCode = true ∧ pc.city ≠ "" ∧ jsTrim pc.city = pc.city := by
  unfold parsePlaceFromPublicId at h
  dsimp only at h
  split at h
  · cases h
  · split at h
    · cases h
    · next hcc =>
      split at h
      · cases h
      · split at h
        · cases h
        · next hne =>
          injection h with h
          subst h
          refine ⟨?_, hne, ?_⟩
          · simpa using hcc
          · exact jsTrim_of_trimmed _ _ rfl

/- ----------------------------------------------------------------- -/
/- truthyIds, counters, geoNone coordinate resolution                 -/
/- ----------------------------------------------------------------- -/

theorem mem_addSet_elim (s : List String) (x y : String) (h : y ∈ addSet s x) :
    y ∈ s ∨ y = x := by
  unfold addSet at h
  by_cases hc : s.contains x = true
  · rw [if_pos hc] at h
    exact Or.inl h
  · rw [if_neg hc] at h
    rcases List.mem_append.mp h with h | h
    · exact Or.inl h
    · exact Or.inr (List.mem_singleton.mp h)

theorem truthyIds_fold_mono (l : List Resource) (acc : List String) (x : String)
    (h : x ∈ acc) :
    x ∈ l.foldl (fun acc r =>
      match r.public_id with
      | none => acc
      | some pid => if pid = "" then acc else addSet acc pid) acc := by
  induction l generalizing acc with
  | nil => exact h
  | cons r t ih =>
    rw [List.foldl_cons]
    apply ih
    cases hp : r.public_id with
    | none =>
      simp only [hp]
      exact h
    | some pid =>
      simp only [hp]
      by_cases hpe : pid = ""
      · rw [if_pos hpe]
        exact h
      · rw [if_neg hpe]
        exact mem_addSet_mono acc pid x h

theorem truthyIds_fold_mem (l : List Resource) (acc : List String) (r : Resource)
    (pid : String) (hr : r ∈ l) (hpid : r.public_id = some pid) (hne : pid ≠ "") :
    pid ∈ l.foldl (fun acc r =>
      match r.public_id with
      | none => acc
      | some p => if p = "" then acc else addSet acc p) acc := by
  induction l generalizing acc with
  | nil => cases hr
  | cons r0 t ih =>
    rw [List.foldl_cons]
    rcases List.mem_cons.mp hr with hr0 | hrt
    · subst hr0
      apply truthyIds_fold_mono
      rw [hpid]
      dsimp only
      rw [if_neg hne]
      exact mem_addSet_self _ _
    · exact ih _ hrt

theorem mem_truthyIds (resources : List Resource) (r : Resource) (pid : String)
    (hr : r ∈ resources) (hpid : r.public_id = some pid) (hne : pid ≠ "") :
    pid ∈ truthyIds resources :=
  truthyIds_fold_mem resources [] r pid hr hpid hne

theorem truthyIds_fold_spec (l : List Resource) (acc : List String) (x : String)
    (h : x ∈ l.foldl (fun acc r =>
      match r.public_id with
      | none => acc
      | some p => if p = "" then acc else addSet acc p) acc) :
    x ∈ acc ∨ ∃ r ∈ l, r.public_id = some x ∧ x ≠ "" := by
  induction l generalizing acc with
  | nil => exact Or.inl h
  | cons r0 t ih =>
    rw [List.foldl_cons] at h
    rcases ih _ h with h1 | ⟨r, hrt, hx⟩
    · cases hp : r0.public_id with
      | none =>
        simp only [hp] at h1
        exact Or.inl h1
      | some pid =>
        simp only [hp] at h1
        by_cases hpe : pid = ""
        · rw [if_pos hpe] at h1
          exact Or.inl h1
        · rw [if_neg hpe] at h1
          rcases mem_addSet_elim acc pid x h1 with h2 | h2
          · exact Or.inl h2
          · subst h2
            exact Or.inr ⟨r0, List.mem_cons_self r0 t, hp, hpe⟩
    · exact Or.inr ⟨r, List.mem_cons_of_mem r0 hrt, hx⟩

theorem truthyIds_spec (resources : List Resource) (x : String)
    (h : x ∈ truthyIds resources) :
    ∃ r ∈ resources, r.public_id = some x ∧ x ≠ "" := by
  rcases truthyIds_fold_spec resources [] x h with h1 | h1
  · cases h1
  · exact h1

/-- The number of resources with a truthy `public_id` (counted with
multiplicity): each such resource bumps exactly one of the three counters. -/
def truthyCount (resources : List Resource) : Nat :=
  resources.countP (fun r =>
    match r.public_id with
    | none => false
    | some pid => !(pid == ""))

theorem processResource_counts (folderArg folderKey : String) (noGeocode : Bool)
    (geo : String → String → Option (ℚ × ℚ)) (dnOf : String → Option String)
    (s : LoopState) (r : Resource) :
    (processResource folderArg folderKey noGeocode geo dnOf s r).added +
      (processResource folderArg folderKey noGeocode geo dnOf s r).updated +
      (processResource folderArg folderKey noGeocode geo dnOf s r).skipped =
    s.added + s.updated + s.skipped +
      (match r.public_id with
       | none => 0
       | some pid => if pid = "" then 0 else 1) := by
  unfold processResource
  cases hr : r.public_id with
  | none => rfl
  | some pid =>
    dsimp only
    by_cases hpid : pid = ""
    · rw [if_pos hpid, if_pos hpid]
      omega
    · rw [if_neg hpid, if_neg hpid]
      cases hp : parsePlaceFromPublicId pid with
      | none =>
        dsimp only
        omega
      | some parsed =>
        dsimp only
        split
        · dsimp only
          omega
        · split
          · dsimp only
            omega
          · dsimp only
            omega

theorem foldl_counts (folderArg folderKey : String) (noGeocode : Bool)
    (geo : String → String → Option (ℚ × ℚ)) (dnOf : String → Option String)
    (resources : List Resource) (s : LoopState) :
    (resources.foldl (processResource folderArg folderKey noGeocode geo dnOf) s).added +
      (resources.foldl (processResource folderArg folderKey noGeocode geo dnOf) s).updated +
      (resources.foldl (processResource folderArg folderKey noGeocode geo dnOf) s).skipped =
    s.added + s.updated + s.skipped + truthyCount resources := by
  induction resources generalizing s with
  | nil => simp [truthyCount]
  | cons r t ih =>
    rw [List.foldl_cons]
    rw [ih]
    rw [processResource_counts folderArg folderKey noGeocode geo dnOf s r]
    have hc : truthyCount (r :: t) =
        (match r.public_id with
         | none => 0
         | some pid => if pid = "" then 0 else 1) + truthyCount t := by
      unfold truthyCount
      rw [List.countP_cons]
      cases hp : r.public_id with
      | none => simp
      | some pid =>
        by_cases hpe : pid = ""
        · simp [hpe]
        · simp [hpe]
          omega
    rw [hc]
    omega

/- Coordinate resolution with the unavailable geocoder. -/

/-- Whether the cache holds finite coordinates under key `k`. -/
def cacheFinite (c : Cache) (k : String) : Prop :=
  ∃ cached, aget c k = some cached ∧ (cached.lat.isSome && cached.lng.isSome) = true

instance (c : Cache) (k : String) : Decidable (cacheFinite c k) := by
  unfold cacheFinite
  cases aget c k with
  | none => exact isFalse (by rintro ⟨e, he, _⟩; cases he)
  | some cached =>
    by_cases h : (cached.lat.isSome && cached.lng.isSome) = true
    · exact isTrue ⟨cached, rfl, h⟩
    · exact isFalse (by
        rintro ⟨e, he, hfin⟩
        injection he with he
        exact h (he ▸ hfin))

theorem resolveCoords_geoNone_cache (noGeocode : Bool) (c : Cache) (g : Nat)
    (w : List String) (cc ci pid : String) (l0 g0 : Option ℚ) :
    (resolveCoords noGeocode geoNone c g w cc ci pid l0 g0).cache = c := by
  unfold resolveCoords geocodeFallback geoNone
  split
  · dsimp only
    split
    · split
      · rfl
      · rfl
    · rfl
  · rfl

theorem resolveCoords_none_geoNone (c : Cache) (g : Nat) (w : List String)
    (cc ci pid : String) :
    ((resolveCoords false geoNone c g w cc ci pid none none).lat.isSome = true ∧
      (resolveCoords false geoNone c g w cc ci pid none none).lng.isSome = true) ↔
    cacheFinite c (normalizeKey cc ci) := by
  unfold resolveCoords geocodeFallback geoNone
  have hcond : (!((none : Option ℚ).isSome && (none : Option ℚ).isSome) && !false) = true := by
    decide
  rw [if_pos hcond]
  dsimp only
  cases hc : aget c (normalizeKey cc ci) with
  | none =>
    simp only [Option.isSome_none]
    constructor
    · rintro ⟨h, _⟩
      cases h
    · rintro ⟨e, he, _⟩
      rw [hc] at he
      cases he
  | some cached =>
    dsimp only
    by_cases hfin : (cached.lat.isSome && cached.lng.isSome) = true
    · rw [if_pos hfin]
      dsimp only
      have hsplit : cached.lat.isSome = true ∧ cached.lng.isSome = true := by
        rw [← Bool.and_eq_true]
        exact hfin
      constructor
      · intro _
        exact ⟨cached, hc, hfin⟩
      · intro _
        exact hsplit
    · rw [if_neg hfin]
      dsimp only
      constructor
      · rintro ⟨h, _⟩
        cases h
      · rintro ⟨e, he, hf⟩
        rw [hc] at he
        injection he with he
        exact absurd (he ▸ hf) hfin

/- ----------------------------------------------------------------- -/
/- Merge and lookup helpers (towards idempotence)                     -/
/- ----------------------------------------------------------------- -/

theorem resolveCoords_some_some (noGeocode : Bool)
    (geo : String → String → Option (ℚ × ℚ)) (c : Cache) (g : Nat) (w : List String)
    (cc ci pid : String) (la lo : ℚ) :
    resolveCoords noGeocode geo c g w cc ci pid (some la) (some lo) =
      { lat := some la, lng := some lo, cache := c, geocoded := g, warnings := w } := by
  unfold resolveCoords
  rw [if_neg (by simp)]

theorem mergeExisting_auto (e : Point) (folderKey folderArg id ci cc : String)
    (cn : Option String) (lat lng : Option ℚ) (pid d : String)
    (hsrc : jsToLower (jsTrim (e.sourceFolder.getD "")) = folderKey)
    (hne : folderKey ≠ "") :
    mergeExisting e folderKey folderArg id ci cc cn lat lng pid d =
      { e with
        id := some id, city := some ci, countryCode := some (jsToUpper cc),
        countryName := jsOr cn e.countryName, lat := lat, lng := lng,
        postcardId := some pid,
        description := jsOr e.description (if d ≠ "" then some d else none),
        sourceFolder := some folderArg } := by
  unfold mergeExisting
  have hauto : jsToLower (jsTrim (e.sourceFolder.getD "")) ≠ "" ∧
      jsToLower (jsTrim (e.sourceFolder.getD "")) = folderKey := by
    refine ⟨?_, hsrc⟩
    rw [hsrc]
    exact hne
  simp only [if_pos hauto]

theorem lookupExisting_no_meta (ix : Indexes) (pid cc ci : String) :
    lookupExisting ix "" pid cc ci =
      jsOr (aget ix.byPostcardId pid)
        (jsOr (aget ix.byCountryCity (ccCityKey cc ci))
          (if aget ix.cityKeyCountsInFolder (slugify ci) = some 1 then
            aget ix.byCityInFolder (slugify ci) else none)) := by
  unfold lookupExisting
  rw [if_neg (by simp)]
  rfl

theorem key_presence_aset {α : Type} (m : List (String × α)) (k : String) (v : α)
    (k0 : String) (h : ∃ kv ∈ m, kv.1 = k0) : ∃ kv ∈ aset m k v, kv.1 = k0 := by
  by_cases hk : k0 = k
  · exact ⟨(k, v), mem_aset_self m k v, hk.symm⟩
  · rcases h with ⟨kv, hkv, hk0⟩
    exact ⟨kv, mem_aset_of_ne m k v kv hkv (by rw [hk0]; exact hk), hk0⟩

theorem aget_isSome_of_key_mem {α : Type} (m : List (String × α)) (k : String)
    (h : ∃ kv ∈ m, kv.1 = k) : (aget m k).isSome = true := by
  rcases h with ⟨kv, hkv, hk⟩
  rw [← hk]
  exact aget_isSome_of_mem m kv hkv

/- ----------------------------------------------------------------- -/
/- The first-run invariant (batch applied to an empty registry)       -/
/- ----------------------------------------------------------------- -/

/-- Shape of every point value stored in any of the four lookup maps during a
run that started from the empty registry: all of them were written by the
batch loop. -/
def LoopVal (folderArg : String) (pids : List String) (v : Point) : Prop :=
  ∃ cc city pid,
    v.countryCode = some cc ∧ isTwoUpper cc = true ∧
    v.city = some city ∧ city ≠ "" ∧ jsTrim city = city ∧
    v.postcardId = some pid ∧ pid ∈ pids ∧ pid ≠ "" ∧
    v.sourceFolder = some folderArg ∧
    v.lat.isSome = true ∧ v.lng.isSome = true ∧
    v.id = some (toTravelPointId cc city)

theorem LoopVal_mono (folderArg : String) (pids pids' : List String) (v : Point)
    (h : LoopVal folderArg pids v) (hsub : ∀ x ∈ pids, x ∈ pids') :
    LoopVal folderArg pids' v := by
  rcases h with ⟨cc, city, pid, hcc, hccU, hcity, hcityne, hcitytrim, hpid, hpidmem,
    hpidne, hsrc, hlat, hlng, hid⟩
  exact ⟨cc, city, pid, hcc, hccU, hcity, hcityne, hcitytrim, hpid, hsub pid hpidmem,
    hpidne, hsrc, hlat, hlng, hid⟩

/-- A resource is covered by the `byId` map: if it is truthy, parseable and
its normalized key has finite cached coordinates, some stored point carries
its country code and normalized city. -/
def CoveredRes (cache : Cache) (m : List (String × Point)) (r : Resource) : Prop :=
  ∀ pid pc, r.public_id = some pid → pid ≠ "" →
    parsePlaceFromPublicId pid = some pc →
    cacheFinite cache (normalizeKey pc.countryCode pc.city) →
    ∃ kv ∈ m, kv.2.countryCode = some pc.countryCode ∧
      ∃ ci, kv.2.city = some ci ∧ slugify ci = slugify pc.city

/-- The inductive invariant of the first run's loop state. -/
structure Run1Inv (folderArg folderKey : String) (cache : Cache) (s : LoopState) : Prop where
  cacheEq : s.cache = cache
  countsNil : s.ix.cityKeyCountsInFolder = []
  byId_val : ∀ kv ∈ s.ix.byId,
    LoopVal folderArg s.publicIdsInFolder kv.2 ∧ kv.2.id = some kv.1
  pc_val : ∀ kv ∈ s.ix.byPostcardId,
    LoopVal folderArg s.publicIdsInFolder kv.2 ∧
    (∀ pc, parsePlaceFromPublicId kv.1 = some pc →
      kv.2.countryCode = some pc.countryCode ∧
      ∃ ci, kv.2.city = some ci ∧ slugify ci = slugify pc.city)
  ccm_val : ∀ kv ∈ s.ix.byCountryCity,
    LoopVal folderArg s.publicIdsInFolder kv.2 ∧
    (∃ cc ci, kv.2.countryCode = some cc ∧ kv.2.city = some ci ∧ kv.1 = ccCityKey cc ci)
  cif_val : ∀ kv ∈ s.ix.byCityInFolder, LoopVal folderArg s.publicIdsInFolder kv.2
  linkId : ∀ kv0, (kv0 ∈ s.ix.byPostcardId ∨ kv0 ∈ s.ix.byCountryCity) →
    ∃ kv ∈ s.ix.byId, kv.2.countryCode = kv0.2.countryCode ∧
      ∃ ci ci', kv.2.city = some ci ∧ kv0.2.city = some ci' ∧ slugify ci = slugify ci'
  ccm_cover : ∀ kv ∈ s.ix.byId, ∃ cc ci, kv.2.countryCode = some cc ∧
    kv.2.city = some ci ∧ ∃ kv', kv' ∈ s.ix.byCountryCity ∧ kv'.1 = ccCityKey cc ci

/-- Inserting a batch-written point `next` (for candidate `pc`, under the four
keys of `insertPoint`) preserves the per-map invariants, provided any `byId`
entry already stored under the id being written carries the same country code
and normalized city as `next`. -/
theorem run1_insert_inv (folderArg : String) (pids : List String) (cache : Cache)
    (ix : Indexes) (pc : PlaceCandidate) (id pidR : String) (next : Point)
    (hbyId : ∀ kv ∈ ix.byId, LoopVal folderArg pids kv.2 ∧ kv.2.id = some kv.1)
    (hccm : ∀ kv ∈ ix.byCountryCity,
      LoopVal folderArg pids kv.2 ∧
      (∃ cc ci, kv.2.countryCode = some cc ∧ kv.2.city = some ci ∧ kv.1 = ccCityKey cc ci))
    (hcif : ∀ kv ∈ ix.byCityInFolder, LoopVal folderArg pids kv.2)
    (hpcm : ∀ kv ∈ ix.byPostcardId,
      LoopVal folderArg pids kv.2 ∧
      (∀ pc0, parsePlaceFromPublicId kv.1 = some pc0 →
        kv.2.countryCode = some pc0.countryCode ∧
        ∃ ci, kv.2.city = some ci ∧ slugify ci = slugify pc0.city))
    (hlink : ∀ kv0, (kv0 ∈ ix.byPostcardId ∨ kv0 ∈ ix.byCountryCity) →
      ∃ kv ∈ ix.byId, kv.2.countryCode = kv0.2.countryCode ∧
        ∃ ci ci', kv.2.city = some ci ∧ kv0.2.city = some ci' ∧ slugify ci = slugify ci')
    (hcover : ∀ kv ∈ ix.byId, ∃ cc ci, kv.2.countryCode = some cc ∧
      kv.2.city = some ci ∧ ∃ kv', kv' ∈ ix.byCountryCity ∧ kv'.1 = ccCityKey cc ci)
    (hnext : LoopVal folderArg pids next)
    (hnextcc : next.countryCode = some pc.countryCode)
    (hnextcity : next.city = some pc.city)
    (hnextpid : next.postcardId = some pidR)
    (hnextid : next.id = some id)
    (hparse : parsePlaceFromPublicId pidR = some pc)
    (hoverwrite : ∀ kv ∈ ix.byId, kv.1 = id →
      kv.2.countryCode = next.countryCode ∧
      ∃ ciK ciN, kv.2.city = some ciK ∧ next.city = some ciN ∧
        slugify ciK = slugify ciN) :
    (∀ kv ∈ (insertPoint ix id next).byId,
      LoopVal folderArg pids kv.2 ∧ kv.2.id = some kv.1) ∧
    (∀ kv ∈ (insertPoint ix id next).byCountryCity,
      LoopVal folderArg pids kv.2 ∧
      (∃ cc ci, kv.2.countryCode = some cc ∧ kv.2.city = some ci ∧ kv.1 = ccCityKey cc ci)) ∧
    (∀ kv ∈ (insertPoint ix id next).byCityInFolder, LoopVal folderArg pids kv.2) ∧
    (∀ kv ∈ (insertPoint ix id next).byPostcardId,
      LoopVal folderArg pids kv.2 ∧
      (∀ pc0, parsePlaceFromPublicId kv.1 = some pc0 →
        kv.2.countryCode = some pc0.countryCode ∧
        ∃ ci, kv.2.city = some ci ∧ slugify ci = slugify pc0.city)) ∧
    (∀ kv0, (kv0 ∈ (insertPoint ix id next).byPostcardId ∨
        kv0 ∈ (insertPoint ix id next).byCountryCity) →
      ∃ kv ∈ (insertPoint ix id next).byId, kv.2.countryCode = kv0.2.countryCode ∧
        ∃ ci ci', kv.2.city = some ci ∧ kv0.2.city = some ci' ∧ slugify ci = slugify ci') ∧
    (∀ kv ∈ (insertPoint ix id next).byId, ∃ cc ci, kv.2.countryCode = some cc ∧
      kv.2.city = some ci ∧ ∃ kv', kv' ∈ (insertPoint ix id next).byCountryCity ∧
        kv'.1 = ccCityKey cc ci) ∧
    ((insertPoint ix id next).cityKeyCountsInFolder = ix.cityKeyCountsInFolder) ∧
    (∀ r0, CoveredRes cache ix.byId r0 →
      CoveredRes cache (insertPoint ix id next).byId r0) := by
  have htransfer : ∀ kv ∈ ix.byId, kv.1 = id →
      ∀ cc ci, kv.2.countryCode = some cc → kv.2.city = some ci →
        next.countryCode = some cc ∧ next.city = some pc.city ∧
          slugify pc.city = slugify ci := by
    intro kv hkv hk cc ci hcc hci
    rcases hoverwrite kv hkv hk with ⟨hccO, ciK, ciN, hciK, hciN, hslugO⟩
    have h1 : next.countryCode = some cc := by rw [← hccO, hcc]
    have h2 : ciK = ci := by
      rw [hci] at hciK
      injection hciK with h
      exact h.symm
    have h3 : ciN = pc.city := by
      rw [hnextcity] at hciN
      injection hciN with h
      exact h.symm
    refine ⟨h1, hnextcity, ?_⟩
    rw [← h3, ← hslugO, h2]
  refine ⟨?_, ?_, ?_, ?_, ?_, ?_, rfl, ?_⟩
  · intro kv hkv
    rcases mem_aset ix.byId id next kv hkv with h | h
    · subst h
      exact ⟨hnext, hnextid⟩
    · exact hbyId kv h
  · intro kv hkv
    rcases mem_aset ix.byCountryCity
      (ccCityKey (next.countryCode.getD "") (next.city.getD "")) next kv hkv with h | h
    · subst h
      refine ⟨hnext, pc.countryCode, pc.city, hnextcc, hnextcity, ?_⟩
      rw [hnextcc, hnextcity]
      rfl
    · exact hccm kv h
  · intro kv hkv
    rcases mem_aset ix.byCityInFolder (slugify (next.city.getD "")) next kv hkv with h | h
    · subst h
      exact hnext
    · exact hcif kv h
  · intro kv hkv
    rcases mem_aset ix.byPostcardId (next.postcardId.getD "") next kv hkv with h | h
    · subst h
      refine ⟨hnext, ?_⟩
      intro pc0 hp0
      rw [hnextpid] at hp0
      dsimp only [Option.getD] at hp0
      rw [hparse] at hp0
      injection hp0 with hp0
      subst hp0
      exact ⟨hnextcc, pc.city, hnextcity, rfl⟩
    · exact hpcm kv h
  · intro kv0 h0
    have hold : (kv0 = ((next.postcardId.getD ""), next) ∨
        kv0 = ((ccCityKey (next.countryCode.getD "") (next.city.getD "")), next)) ∨
        (kv0 ∈ ix.byPostcardId ∨ kv0 ∈ ix.byCountryCity) := by
      rcases h0 with h0 | h0
      · rcases mem_aset ix.byPostcardId (next.postcardId.getD "") next kv0 h0 with h | h
        · exact Or.inl (Or.inl h)
        · exact Or.inr (Or.inl h)
      · rcases mem_aset ix.byCountryCity
          (ccCityKey (next.countryCode.getD "") (next.city.getD "")) next kv0 h0 with h | h
        · exact Or.inl (Or.inr h)
        · exact Or.inr (Or.inr h)
    rcases hold with hnew | holdmem
    · have hv : kv0.2 = next := by
        rcases hnew with h | h <;> (subst h; rfl)
      refine ⟨(id, next), mem_aset_self ix.byId id next, ?_, pc.city, pc.city, ?_, ?_, rfl⟩
      · rw [hv]
      · exact hnextcity
      · rw [hv]
        exact hnextcity
    · rcases hlink kv0 holdmem with ⟨kv, hkv, hcc0, ci, ci', hci, hci', hslug⟩
      by_cases hk : kv.1 = id
      · rcases hbyId kv hkv with ⟨hval, _⟩
        rcases hval with ⟨ccv, civ, pidv, hccv, _, hciv, _, _, _, _, _, _, _, _, _⟩
        rcases htransfer kv hkv hk ccv civ hccv hciv with ⟨hnc, hncity, hslug2⟩
        refine ⟨(id, next), mem_aset_self ix.byId id next, ?_, pc.city, ci', ?_, hci', ?_⟩
        · rw [hnc, ← hccv, hcc0]
        · exact hnextcity
        · have hcieq : civ = ci := by
            rw [hci] at hciv
            injection hciv with h
            exact h.symm
          rw [hslug2, hcieq]
          exact hslug
      · exact ⟨kv, mem_aset_of_ne ix.byId id next kv hkv hk, hcc0, ci, ci', hci, hci', hslug⟩
  · intro kv hkv
    rcases mem_aset ix.byId id next kv hkv with h | h
    · subst h
      refine ⟨pc.countryCode, pc.city, hnextcc, hnextcity,
        ((ccCityKey (next.countryCode.getD "") (next.city.getD "")), next), ?_, ?_⟩
      · exact mem_aset_self _ _ _
      · rw [hnextcc, hnextcity]
        rfl
    · rcases hcover kv h with ⟨cc, ci, hcc, hci, kv', hkv', hkey⟩
      rcases key_presence_aset ix.byCountryCity
        (ccCityKey (next.countryCode.getD "") (next.city.getD "")) next
        (ccCityKey cc ci) ⟨kv', hkv', hkey⟩ with ⟨kv'', hkv'', hkey''⟩
      exact ⟨cc, ci, hcc, hci, kv'', hkv'', hkey''⟩
  · intro r0 hcov pid0 pc0 h1 h2 h3 h4
    rcases hcov pid0 pc0 h1 h2 h3 h4 with ⟨kv, hkv, hcc, ci, hci, hslug⟩
    by_cases hk : kv.1 = id
    · rcases htransfer kv hkv hk pc0.countryCode ci hcc hci with ⟨hnc, hncity, hslug2⟩
      refine ⟨(id, next), mem_aset_self ix.byId id next, hnc, pc.city, hncity, ?_⟩
      rw [hslug2]
      exact hslug
    · exact ⟨kv, mem_aset_of_ne ix.byId id next kv hkv hk, hcc, ci, hci, hslug⟩
theorem jsOr_none_right {α : Type} (a : Option α) : jsOr a none = a := by
  unfold jsOr
  cases a <;> rfl

/-- Any `byId` entry already stored under the travel-point id of candidate
`pc` carries the country code of `pc` and a city with the same slug. -/
theorem run1_overwrite (folderArg : String) (pids : List String)
    (m : List (String × Point)) (pc : PlaceCandidate)
    (hU : isTwoUpper pc.countryCode = true)
    (hbyId : ∀ kv ∈ m, LoopVal folderArg pids kv.2 ∧ kv.2.id = some kv.1) :
    ∀ kv ∈ m, kv.1 = toTravelPointId pc.countryCode pc.city →
      kv.2.countryCode = some pc.countryCode ∧
      ∃ ciK, kv.2.city = some ciK ∧ slugify ciK = slugify pc.city := by
  intro kv hkv hk
  rcases hbyId kv hkv with ⟨hval, hkid⟩
  rcases hval with ⟨cck, cik, pidk, hkcc, hkccU, hkci, _, _, _, _, _, _, _, _, hkidv⟩
  have hkeq : toTravelPointId cck cik = toTravelPointId pc.countryCode pc.city := by
    rw [hkid] at hkidv
    injection hkidv with h
    rw [← h]
    exact hk
  rcases toTravelPointId_inj cck pc.countryCode cik pc.city hkccU hU hkeq with ⟨hcc, hslug⟩
  exact ⟨by rw [hkcc, hcc], cik, hkci, hslug⟩

/-- One iteration of the first run's loop preserves the invariant, preserves
coverage of previously processed resources, and covers the resource it just
processed (no geocoder, no metadata place id on the resource). -/
theorem run1_step (folderArg folderKey : String) (cache : Cache)
    (dnOf : String → Option String)
    (hfkeq : folderKey = jsToLower (jsTrim folderArg)) (hfk : folderKey ≠ "")
    (s : LoopState) (r : Resource)
    (hmeta : jsTrim (r.metaPlaceId.getD "") = "")
    (inv : Run1Inv folderArg folderKey cache s) :
    Run1Inv folderArg folderKey cache
      (processResource folderArg folderKey false geoNone dnOf s r) ∧
    (∀ r0, CoveredRes cache s.ix.byId r0 →
      CoveredRes cache
        (processResource folderArg folderKey false geoNone dnOf s r).ix.byId r0) ∧
    CoveredRes cache
      (processResource folderArg folderKey false geoNone dnOf s r).ix.byId r := by
  unfold processResource
  cases hr : r.public_id with
  | none =>
    refine ⟨inv, fun r0 h => h, ?_⟩
    intro pid pc hpid
    rw [hr] at hpid
    cases hpid
  | some publicId =>
    dsimp only
    by_cases hpe : publicId = ""
    · rw [if_pos hpe]
      refine ⟨inv, fun r0 h => h, ?_⟩
      intro pid pc hpid hne
      rw [hr] at hpid
      injection hpid with hpid
      exact absurd (hpid ▸ hpe) hne
    · rw [if_neg hpe]
      have hmono : ∀ x ∈ s.publicIdsInFolder, x ∈ addSet s.publicIdsInFolder publicId :=
        fun x hx => mem_addSet_mono _ _ _ hx
      have hbyId2 : ∀ kv ∈ s.ix.byId,
          LoopVal folderArg (addSet s.publicIdsInFolder publicId) kv.2 ∧
            kv.2.id = some kv.1 :=
        fun kv hkv => ⟨LoopVal_mono _ _ _ _ (inv.byId_val kv hkv).1 hmono,
          (inv.byId_val kv hkv).2⟩
      have hpcm2 : ∀ kv ∈ s.ix.byPostcardId,
          LoopVal folderArg (addSet s.publicIdsInFolder publicId) kv.2 ∧
          (∀ pc0, parsePlaceFromPublicId kv.1 = some pc0 →
            kv.2.countryCode = some pc0.countryCode ∧
            ∃ ci, kv.2.city = some ci ∧ slugify ci = slugify pc0.city) :=
        fun kv hkv => ⟨LoopVal_mono _ _ _ _ (inv.pc_val kv hkv).1 hmono,
          (inv.pc_val kv hkv).2⟩
      have hccm2 : ∀ kv ∈ s.ix.byCountryCity,
          LoopVal folderArg (addSet s.publicIdsInFolder publicId) kv.2 ∧
          (∃ cc ci, kv.2.countryCode = some cc ∧ kv.2.city = some ci ∧
            kv.1 = ccCityKey cc ci) :=
        fun kv hkv => ⟨LoopVal_mono _ _ _ _ (inv.ccm_val kv hkv).1 hmono,
          (inv.ccm_val kv hkv).2⟩
      have hcif2 : ∀ kv ∈ s.ix.byCityInFolder,
          LoopVal folderArg (addSet s.publicIdsInFolder publicId) kv.2 :=
        fun kv hkv => LoopVal_mono _ _ _ _ (inv.cif_val kv hkv) hmono
      cases hp : parsePlaceFromPublicId publicId with
      | none =>
        dsimp only
        refine ⟨⟨inv.cacheEq, inv.countsNil, hbyId2, hpcm2, hccm2, hcif2,
          inv.linkId, inv.ccm_cover⟩, fun r0 h => h, ?_⟩
        intro pid pc hpid hne hparse
        rw [hr] at hpid
        injection hpid with hpid
        rw [← hpid] at hparse
        rw [hp] at hparse
        cases hparse
      | some parsed =>
        dsimp only
        rcases parse_facts publicId parsed hp with ⟨hpcU, hpcne, hpctrim⟩
        rw [hmeta]
        rw [if_neg (show ¬(("" : String) ≠ "") from fun hcon => hcon rfl)]
        have hlook : lookupExisting s.ix "" publicId parsed.countryCode parsed.city
            = jsOr (aget s.ix.byPostcardId publicId)
                (aget s.ix.byCountryCity (ccCityKey parsed.countryCode parsed.city)) := by
          rw [lookupExisting_no_meta, inv.countsNil]
          rw [if_neg (by simp [aget])]
          rw [jsOr_none_right]
        rw [hlook]
        cases hex : jsOr (aget s.ix.byPostcardId publicId)
            (aget s.ix.byCountryCity (ccCityKey parsed.countryCode parsed.city)) with
        | some e =>
          dsimp only [Option.some_bind]
          have hefacts : LoopVal folderArg s.publicIdsInFolder e ∧
              e.countryCode = some parsed.countryCode ∧
              ∃ ci0, e.city = some ci0 ∧ slugify ci0 = slugify parsed.city := by
            rcases jsOr_eq_some _ _ _ hex with h | h
            · have hmem := mem_of_aget _ _ _ h
              rcases inv.pc_val (publicId, e) hmem with ⟨hval, hcl⟩
              rcases hcl parsed hp with ⟨hcc, ci0, hci0, hslug⟩
              exact ⟨hval, hcc, ci0, hci0, hslug⟩
            · have hmem := mem_of_aget _ _ _ h
              rcases inv.ccm_val (ccCityKey parsed.countryCode parsed.city, e) hmem with
                ⟨hval, cc0, ci0, hcc0, hci0, hkey⟩
              have hcc0U : isTwoUpper cc0 = true := by
                rcases hval with ⟨cce, cie, pide, hcce, hcceU, _⟩
                rw [hcce] at hcc0
                injection hcc0 with h0
                rw [← h0]
                exact hcceU
              rcases ccCityKey_inj parsed.countryCode cc0 parsed.city ci0 hpcU hcc0U hkey
                with ⟨hcceq, hslugeq⟩
              exact ⟨hval, by rw [hcc0]; exact congrArg some hcceq.symm,
                ci0, hci0, hslugeq.symm⟩
          rcases hefacts with ⟨heval, hecc, ci0, heci0, heslug⟩
          rcases heval with ⟨cce, cie, pide, hecce, hecceU, hecie, heciene, hecitrim,
            hepide, hepidmem, hepidne, hesrc, helat, helng, heidv⟩
          have hcceeq : cce = parsed.countryCode := by
            rw [hecce] at hecc
            injection hecc
          have hcieeq : cie = ci0 := by
            rw [hecie] at heci0
            injection heci0
          have hslug2 : slugify cie = slugify parsed.city := by
            rw [hcieeq]
            exact heslug
          have hid_eq : toTravelPointId cce cie
              = toTravelPointId parsed.countryCode parsed.city := by
            rw [hcceeq]
            exact toTravelPointId_congr_slug _ _ _ hslug2
          rcases Option.isSome_iff_exists.mp helat with ⟨la, hla⟩
          rcases Option.isSome_iff_exists.mp helng with ⟨lo, hlo⟩
          simp only [heidv, Option.getD_some, hid_eq, hla, hlo]
          rw [resolveCoords_some_some]
          dsimp only
          rw [if_neg (by simp)]
          dsimp only
          have hsrc2 : jsToLower (jsTrim (e.sourceFolder.getD "")) = folderKey := by
            rw [hesrc]
            exact hfkeq.symm
          have hNcc : (mergeExisting e folderKey folderArg
              (toTravelPointId parsed.countryCode parsed.city) parsed.city
              parsed.countryCode
              (jsOrOpt (getCountryName dnOf parsed.countryCode) e.countryName)
              (some la) (some lo) publicId
              (jsTrim (r.metaDesc.getD ""))).countryCode = some parsed.countryCode := by
            rw [mergeExisting_auto _ _ _ _ _ _ _ _ _ _ _ hsrc2 hfk]
            rw [jsToUpper_fixed parsed.countryCode hpcU]
          have hNcity : (mergeExisting e folderKey folderArg
              (toTravelPointId parsed.countryCode parsed.city) parsed.city
              parsed.countryCode
              (jsOrOpt (getCountryName dnOf parsed.countryCode) e.countryName)
              (some la) (some lo) publicId
              (jsTrim (r.metaDesc.getD ""))).city = some parsed.city := by
            rw [mergeExisting_auto _ _ _ _ _ _ _ _ _ _ _ hsrc2 hfk]
          have hNpid : (mergeExisting e folderKey folderArg
              (toTravelPointId parsed.countryCode parsed.city) parsed.city
              parsed.countryCode
              (jsOrOpt (getCountryName dnOf parsed.countryCode) e.countryName)
              (some la) (some lo) publicId
              (jsTrim (r.metaDesc.getD ""))).postcardId = some publicId := by
            rw [mergeExisting_auto _ _ _ _ _ _ _ _ _ _ _ hsrc2 hfk]
          have hNid : (mergeExisting e folderKey folderArg
              (toTravelPointId parsed.countryCode parsed.city) parsed.city
              parsed.countryCode
              (jsOrOpt (getCountryName dnOf parsed.countryCode) e.countryName)
              (some la) (some lo) publicId
              (jsTrim (r.metaDesc.getD ""))).id
              = some (toTravelPointId parsed.countryCode parsed.city) := by
            rw [mergeExisting_auto _ _ _ _ _ _ _ _ _ _ _ hsrc2 hfk]
          have hNval : LoopVal folderArg (addSet s.publicIdsInFolder publicId)
              (mergeExisting e folderKey folderArg
                (toTravelPointId parsed.countryCode parsed.city) parsed.city
                parsed.countryCode
                (jsOrOpt (getCountryName dnOf parsed.countryCode) e.countryName)
                (some la) (some lo) publicId
                (jsTrim (r.metaDesc.getD ""))) := by
            rw [mergeExisting_auto _ _ _ _ _ _ _ _ _ _ _ hsrc2 hfk]
            exact ⟨parsed.countryCode, parsed.city, publicId,
              by rw [jsToUpper_fixed parsed.countryCode hpcU], hpcU, rfl, hpcne,
              hpctrim, rfl, mem_addSet_self _ _, hpe, rfl, rfl, rfl, rfl⟩
          have hover : ∀ kv ∈ s.ix.byId,
              kv.1 = toTravelPointId parsed.countryCode parsed.city →
              kv.2.countryCode = (mergeExisting e folderKey folderArg
                (toTravelPointId parsed.countryCode parsed.city) parsed.city
                parsed.countryCode
                (jsOrOpt (getCountryName dnOf parsed.countryCode) e.countryName)
                (some la) (some lo) publicId
                (jsTrim (r.metaDesc.getD ""))).countryCode ∧
              ∃ ciK ciN, kv.2.city = some ciK ∧
                (mergeExisting e folderKey folderArg
                  (toTravelPointId parsed.countryCode parsed.city) parsed.city
                  parsed.countryCode
                  (jsOrOpt (getCountryName dnOf parsed.countryCode) e.countryName)
                  (some la) (some lo) publicId
                  (jsTrim (r.metaDesc.getD ""))).city = some ciN ∧
                slugify ciK = slugify ciN := by
            intro kv hkv hk
            rcases run1_overwrite folderArg s.publicIdsInFolder s.ix.byId parsed hpcU
              inv.byId_val kv hkv hk with ⟨hkcc, ciK, hkci, hkslug⟩
            refine ⟨?_, ciK, parsed.city, hkci, hNcity, hkslug⟩
            rw [hkcc, hNcc]
          obtain ⟨H1, H2, H3, H4, H5, H6, H7, H8⟩ :=
            run1_insert_inv folderArg (addSet s.publicIdsInFolder publicId) cache s.ix
              parsed (toTravelPointId parsed.countryCode parsed.city) publicId _
              hbyId2 hccm2 hcif2 hpcm2 inv.linkId inv.ccm_cover hNval hNcc hNcity hNpid
              hNid hp hover
          refine ⟨⟨inv.cacheEq, ?_, H1, H4, H2, H3, H5, H6⟩, H8, ?_⟩
          · rw [H7]
            exact inv.countsNil
          · intro pid0 pc0 hpid0 hne0 hparse0 hfin0
            rw [hr] at hpid0
            injection hpid0 with hpid0
            rw [← hpid0] at hparse0
            rw [hp] at hparse0
            injection hparse0 with hparse0
            rw [← hparse0]
            exact ⟨(toTravelPointId parsed.countryCode parsed.city, _),
              mem_aset_self _ _ _, hNcc, parsed.city, hNcity, rfl⟩
        | none =>
          dsimp only [Option.none_bind, Option.getD_none]
          rw [inv.cacheEq]
          by_cases hfin : cacheFinite cache (normalizeKey parsed.countryCode parsed.city)
          · have hgate := (resolveCoords_none_geoNone cache s.geocoded s.warnings
              parsed.countryCode parsed.city publicId).mpr hfin
            rw [if_neg (by rw [hgate.1, hgate.2]; decide)]
            dsimp only
            have hNval : LoopVal folderArg (addSet s.publicIdsInFolder publicId)
                (newPoint (toTravelPointId parsed.countryCode parsed.city) parsed.city
                  parsed.countryCode
                  (jsOrOpt (getCountryName dnOf parsed.countryCode) none)
                  (resolveCoords false geoNone cache s.geocoded s.warnings
                    parsed.countryCode parsed.city publicId none none).lat
                  (resolveCoords false geoNone cache s.geocoded s.warnings
                    parsed.countryCode parsed.city publicId none none).lng
                  publicId (jsTrim (r.metaDesc.getD "")) folderArg) :=
              ⟨parsed.countryCode, parsed.city, publicId, rfl, hpcU, rfl, hpcne,
                hpctrim, rfl, mem_addSet_self _ _, hpe, rfl, hgate.1, hgate.2, rfl⟩
            have hover : ∀ kv ∈ s.ix.byId,
                kv.1 = toTravelPointId parsed.countryCode parsed.city →
                kv.2.countryCode = (newPoint (toTravelPointId parsed.countryCode
                    parsed.city) parsed.city parsed.countryCode
                  (jsOrOpt (getCountryName dnOf parsed.countryCode) none)
                  (resolveCoords false geoNone cache s.geocoded s.warnings
                    parsed.countryCode parsed.city publicId none none).lat
                  (resolveCoords false geoNone cache s.geocoded s.warnings
                    parsed.countryCode parsed.city publicId none none).lng
                  publicId (jsTrim (r.metaDesc.getD "")) folderArg).countryCode ∧
                ∃ ciK ciN, kv.2.city = some ciK ∧
                  (newPoint (toTravelPointId parsed.countryCode parsed.city) parsed.city
                    parsed.countryCode
                    (jsOrOpt (getCountryName dnOf parsed.countryCode) none)
                    (resolveCoords false geoNone cache s.geocoded s.warnings
                      parsed.countryCode parsed.city publicId none none).lat
                    (resolveCoords false geoNone cache s.geocoded s.warnings
                      parsed.countryCode parsed.city publicId none none).lng
                    publicId (jsTrim (r.metaDesc.getD "")) folderArg).city = some ciN ∧
                  slugify ciK = slugify ciN := by
              intro kv hkv hk
              rcases run1_overwrite folderArg s.publicIdsInFolder s.ix.byId parsed hpcU
                inv.byId_val kv hkv hk with ⟨hkcc, ciK, hkci, hkslug⟩
              refine ⟨?_, ciK, parsed.city, hkci, rfl, hkslug⟩
              rw [hkcc]
              rfl
            obtain ⟨H1, H2, H3, H4, H5, H6, H7, H8⟩ :=
              run1_insert_inv folderArg (addSet s.publicIdsInFolder publicId) cache s.ix
                parsed (toTravelPointId parsed.countryCode parsed.city) publicId _
                hbyId2 hccm2 hcif2 hpcm2 inv.linkId inv.ccm_cover hNval rfl rfl rfl rfl
                hp hover
            refine ⟨⟨?_, ?_, H1, H4, H2, H3, H5, H6⟩, H8, ?_⟩
            · exact resolveCoords_geoNone_cache _ _ _ _ _ _ _ _ _
            · rw [H7]
              exact inv.countsNil
            · intro pid0 pc0 hpid0 hne0 hparse0 hfin0
              rw [hr] at hpid0
              injection hpid0 with hpid0
              rw [← hpid0] at hparse0
              rw [hp] at hparse0
              injection hparse0 with hparse0
              rw [← hparse0]
              exact ⟨(toTravelPointId parsed.countryCode parsed.city, _),
                mem_aset_self _ _ _, rfl, parsed.city, rfl, rfl⟩
          · have hcond : (!((resolveCoords false geoNone cache s.geocoded s.warnings
                parsed.countryCode parsed.city publicId none none).lat.isSome &&
                (resolveCoords false geoNone cache s.geocoded s.warnings
                  parsed.countryCode parsed.city publicId none none).lng.isSome))
                = true := by
              have hAB : ((resolveCoords false geoNone cache s.geocoded s.warnings
                  parsed.countryCode parsed.city publicId none none).lat.isSome &&
                  (resolveCoords false geoNone cache s.geocoded s.warnings
                    parsed.countryCode parsed.city publicId none none).lng.isSome)
                  = false := by
                cases hA : (resolveCoords false geoNone cache s.geocoded s.warnings
                    parsed.countryCode parsed.city publicId none none).lat.isSome with
                | false => rw [Bool.false_and]
                | true =>
                  cases hB : (resolveCoords false geoNone cache s.geocoded s.warnings
                      parsed.countryCode parsed.city publicId none none).lng.isSome with
                  | false =>
                    rw [Bool.true_and]
                  | true =>
                    exact absurd ((resolveCoords_none_geoNone cache s.geocoded s.warnings
                      parsed.countryCode parsed.city publicId).mp ⟨hA, hB⟩) hfin
              rw [hAB]
              rfl
            rw [if_pos hcond]
            refine ⟨⟨?_, inv.countsNil, hbyId2, hpcm2, hccm2, hcif2,
              inv.linkId, inv.ccm_cover⟩, fun r0 h => h, ?_⟩
            · exact resolveCoords_geoNone_cache _ _ _ _ _ _ _ _ _
            · intro pid0 pc0 hpid0 hne0 hparse0 hfin0
              rw [hr] at hpid0
              injection hpid0 with hpid0
              rw [← hpid0] at hparse0
              rw [hp] at hparse0
              injection hparse0 with hparse0
              rw [← hparse0] at hfin0
              exact absurd hfin0 hfin
/-- Folding the first run's loop from an invariant state preserves the
invariant, preserves coverage, and covers every processed resource. -/
theorem run1_fold (folderArg folderKey : String) (cache : Cache)
    (dnOf : String → Option String)
    (hfkeq : folderKey = jsToLower (jsTrim folderArg)) (hfk : folderKey ≠ "")
    (resources : List Resource) (s : LoopState) :
    (∀ r ∈ resources, jsTrim (r.metaPlaceId.getD "") = "") →
    Run1Inv folderArg folderKey cache s →
    Run1Inv folderArg folderKey cache
      (resources.foldl (processResource folderArg folderKey false geoNone dnOf) s) ∧
    (∀ r0, CoveredRes cache s.ix.byId r0 →
      CoveredRes cache
        (resources.foldl (processResource folderArg folderKey false geoNone dnOf)
          s).ix.byId r0) ∧
    (∀ r ∈ resources, CoveredRes cache
      (resources.foldl (processResource folderArg folderKey false geoNone dnOf)
        s).ix.byId r) := by
  induction resources generalizing s with
  | nil =>
    intro _ inv
    exact ⟨inv, fun r0 h => h, fun r h => absurd h (List.not_mem_nil r)⟩
  | cons r t ih =>
    intro hmeta inv
    obtain ⟨inv1, pres1, cov1⟩ := run1_step folderArg folderKey cache dnOf hfkeq hfk s r
      (hmeta r (List.mem_cons_self r t)) inv
    obtain ⟨invF, presF, covF⟩ :=
      ih _ (fun x hx => hmeta x (List.mem_cons_of_mem r hx)) inv1
    rw [List.foldl_cons]
    refine ⟨invF, fun r0 h => presF r0 (pres1 r0 h), ?_⟩
    intro r0 hr0
    rcases List.mem_cons.mp hr0 with h | h
    · subst h
      exact presF r0 cov1
    · exact covF r0 h

/-- A same-batch point whose trimmed `postcardId` is among the batch's
identifiers passes the stale-point prune filter. -/
theorem keepPrune_true (prune : Bool) (folderKey : String) (publicIds : List String)
    (p : Point) (pid : String)
    (hpid : p.postcardId = some pid) (hne : pid ≠ "") (htrim : jsTrim pid = pid)
    (hmem : pid ∈ publicIds) :
    keepPrune prune folderKey publicIds p = true := by
  unfold keepPrune
  cases prune with
  | false => rfl
  | true =>
    rw [if_neg (by decide)]
    dsimp only
    by_cases hsrc : (jsToLower (jsTrim (p.sourceFolder.getD "")) = "" ∨
        jsToLower (jsTrim (p.sourceFolder.getD "")) ≠ folderKey)
    · rw [if_pos hsrc]
    · rw [if_neg hsrc]
      rw [hpid]
      dsimp only [Option.getD_some]
      rw [htrim]
      rw [if_neg hne]
      exact List.elem_iff.mpr hmem

/-- A point with a non-blank provenance key passes the legacy-cleanup filter. -/
theorem keepLegacy_true (prune : Bool) (publicIds : List String)
    (m : List (String × Point)) (p : Point)
    (hsrc : jsToLower (jsTrim (p.sourceFolder.getD "")) ≠ "") :
    keepLegacy prune publicIds m p = true := by
  unfold keepLegacy
  cases prune with
  | false => rfl
  | true =>
    rw [if_neg (by decide)]
    dsimp only
    rw [if_pos hsrc]

/-- When every stored point is batch-stamped and carries a trimmed, truthy
`postcardId` of the batch, the output filters drop nothing. -/
theorem finalOut_all (prune : Bool) (folderArg folderKey : String)
    (publicIds : List String) (ix : Indexes)
    (hfkeq : folderKey = jsToLower (jsTrim folderArg)) (hfk : folderKey ≠ "")
    (h : ∀ p ∈ ix.byId.map Prod.snd,
      p.sourceFolder = some folderArg ∧
      ∃ pid, p.postcardId = some pid ∧ pid ≠ "" ∧ jsTrim pid = pid ∧ pid ∈ publicIds) :
    finalOut prune folderKey publicIds ix = ix.byId.map Prod.snd := by
  unfold finalOut
  have h1 : (ix.byId.map Prod.snd).filter (fun _ => true) = ix.byId.map Prod.snd :=
    List.filter_eq_self.mpr (fun a _ => rfl)
  rw [h1]
  have h2 : (ix.byId.map Prod.snd).filter (keepPrune prune folderKey publicIds)
      = ix.byId.map Prod.snd := by
    apply List.filter_eq_self.mpr
    intro p hp
    rcases h p hp with ⟨hsrc, pid, hpid, hne, htrim, hmem⟩
    exact keepPrune_true prune folderKey publicIds p pid hpid hne htrim hmem
  rw [h2]
  apply List.filter_eq_self.mpr
  intro p hp
  rcases h p hp with ⟨hsrc, _⟩
  apply keepLegacy_true
  rw [hsrc]
  exact fun hc => hfk (hfkeq.trans hc)
/-- The `byPostcardId` map after one index-building iteration. -/
theorem indexEntry_byPostcardId (folderKey : String) (ix : Indexes) (e : RawEntry) :
    (indexEntry folderKey ix e).byPostcardId =
      match e with
      | .nonObj => ix.byPostcardId
      | .obj p =>
        match p.postcardId with
        | some s => if s ≠ "" then aset ix.byPostcardId s p else ix.byPostcardId
        | none => ix.byPostcardId := by
  unfold indexEntry
  cases e with
  | nonObj => rfl
  | obj p =>
    dsimp only
    cases p.id <;> cases p.postcardId <;> dsimp only <;> split_ifs <;> rfl

/-- The `byCountryCity` map after one index-building iteration. -/
theorem indexEntry_byCountryCity (folderKey : String) (ix : Indexes) (e : RawEntry) :
    (indexEntry folderKey ix e).byCountryCity =
      match e with
      | .nonObj => ix.byCountryCity
      | .obj p =>
        if jsToUpper (jsTrim (p.countryCode.getD "")) ≠ "" ∧
            jsTrim (p.city.getD "") ≠ "" then
          aset ix.byCountryCity
            (ccCityKey (jsToUpper (jsTrim (p.countryCode.getD "")))
              (jsTrim (p.city.getD ""))) p
        else ix.byCountryCity := by
  unfold indexEntry
  cases e with
  | nonObj => rfl
  | obj p =>
    dsimp only
    cases p.id <;> cases p.postcardId <;> dsimp only <;> split_ifs <;> rfl

/-- The `byCityInFolder` map after one index-building iteration. -/
theorem indexEntry_byCityInFolder (folderKey : String) (ix : Indexes) (e : RawEntry) :
    (indexEntry folderKey ix e).byCityInFolder =
      match e with
      | .nonObj => ix.byCityInFolder
      | .obj p =>
        if jsToLower (jsTrim (p.sourceFolder.getD "")) ≠ "" ∧
            jsToLower (jsTrim (p.sourceFolder.getD "")) = folderKey ∧
            jsTrim (p.city.getD "") ≠ "" then
          (if (aget ix.byCityInFolder (slugify (jsTrim (p.city.getD "")))).isNone then
            aset ix.byCityInFolder (slugify (jsTrim (p.city.getD ""))) p
          else ix.byCityInFolder)
        else ix.byCityInFolder := by
  unfold indexEntry
  cases e with
  | nonObj => rfl
  | obj p =>
    dsimp only
    cases p.id <;> cases p.postcardId <;> dsimp only <;> split_ifs <;> rfl

/-- Every `byId` entry after indexing a list of point objects is either an
entry of the starting map or one of the points, stored under its own id. -/
theorem init_byId_mem (folderKey : String) (ps : List Point) (ix : Indexes) :
    ∀ kv ∈ ((ps.map RawEntry.obj).foldl (indexEntry folderKey) ix).byId,
      kv ∈ ix.byId ∨ (kv.2 ∈ ps ∧ kv.2.id = some kv.1) := by
  induction ps generalizing ix with
  | nil =>
    intro kv h
    exact Or.inl h
  | cons p t ih =>
    intro kv h
    rw [List.map_cons, List.foldl_cons] at h
    rcases ih (indexEntry folderKey ix (.obj p)) kv h with h1 | h1
    · rw [indexEntry_byId] at h1
      cases hid : p.id with
      | none =>
        simp only [hid] at h1
        exact Or.inl h1
      | some s =>
        simp only [hid] at h1
        by_cases hs : s ≠ ""
        · rw [if_pos hs] at h1
          rcases mem_aset _ _ _ kv h1 with h2 | h2
          · subst h2
            exact Or.inr ⟨List.mem_cons_self p t, hid⟩
          · exact Or.inl h2
        · rw [if_neg hs] at h1
          exact Or.inl h1
    · exact Or.inr ⟨List.mem_cons_of_mem p h1.1, h1.2⟩

/-- Same for `byPostcardId` (value only). -/
theorem init_pc_mem (folderKey : String) (ps : List Point) (ix : Indexes) :
    ∀ kv ∈ ((ps.map RawEntry.obj).foldl (indexEntry folderKey) ix).byPostcardId,
      kv ∈ ix.byPostcardId ∨ kv.2 ∈ ps := by
  induction ps generalizing ix with
  | nil =>
    intro kv h
    exact Or.inl h
  | cons p t ih =>
    intro kv h
    rw [List.map_cons, List.foldl_cons] at h
    rcases ih (indexEntry folderKey ix (.obj p)) kv h with h1 | h1
    · rw [indexEntry_byPostcardId] at h1
      cases hid : p.postcardId with
      | none =>
        simp only [hid] at h1
        exact Or.inl h1
      | some s =>
        simp only [hid] at h1
        by_cases hs : s ≠ ""
        · rw [if_pos hs] at h1
          rcases mem_aset _ _ _ kv h1 with h2 | h2
          · subst h2
            exact Or.inr (List.mem_cons_self p t)
          · exact Or.inl h2
        · rw [if_neg hs] at h1
          exact Or.inl h1
    · exact Or.inr (List.mem_cons_of_mem p h1)

/-- Same for `byCountryCity` (value only). -/
theorem init_ccm_mem (folderKey : String) (ps : List Point) (ix : Indexes) :
    ∀ kv ∈ ((ps.map RawEntry.obj).foldl (indexEntry folderKey) ix).byCountryCity,
      kv ∈ ix.byCountryCity ∨ kv.2 ∈ ps := by
  induction ps generalizing ix with
  | nil =>
    intro kv h
    exact Or.inl h
  | cons p t ih =>
    intro kv h
    rw [List.map_cons, List.foldl_cons] at h
    rcases ih (indexEntry folderKey ix (.obj p)) kv h with h1 | h1
    · rw [indexEntry_byCountryCity] at h1
      dsimp only at h1
      by_cases hg : jsToUpper (jsTrim (p.countryCode.getD "")) ≠ "" ∧
          jsTrim (p.city.getD "") ≠ ""
      · rw [if_pos hg] at h1
        rcases mem_aset _ _ _ kv h1 with h2 | h2
        · subst h2
          exact Or.inr (List.mem_cons_self p t)
        · exact Or.inl h2
      · rw [if_neg hg] at h1
        exact Or.inl h1
    · exact Or.inr (List.mem_cons_of_mem p h1)

/-- Same for `byCityInFolder` (value only). -/
theorem init_cif_mem (folderKey : String) (ps : List Point) (ix : Indexes) :
    ∀ kv ∈ ((ps.map RawEntry.obj).foldl (indexEntry folderKey) ix).byCityInFolder,
      kv ∈ ix.byCityInFolder ∨ kv.2 ∈ ps := by
  induction ps generalizing ix with
  | nil =>
    intro kv h
    exact Or.inl h
  | cons p t ih =>
    intro kv h
    rw [List.map_cons, List.foldl_cons] at h
    rcases ih (indexEntry folderKey ix (.obj p)) kv h with h1 | h1
    · rw [indexEntry_byCityInFolder] at h1
      dsimp only at h1
      by_cases hg : jsToLower (jsTrim (p.sourceFolder.getD "")) ≠ "" ∧
          jsToLower (jsTrim (p.sourceFolder.getD "")) = folderKey ∧
          jsTrim (p.city.getD "") ≠ ""
      · rw [if_pos hg] at h1
        by_cases hn : (aget ix.byCityInFolder (slugify (jsTrim (p.city.getD "")))).isNone
          = true
        · rw [if_pos hn] at h1
          rcases mem_aset _ _ _ kv h1 with h2 | h2
          · subst h2
            exact Or.inr (List.mem_cons_self p t)
          · exact Or.inl h2
        · rw [if_neg hn] at h1
          exact Or.inl h1
      · rw [if_neg hg] at h1
        exact Or.inl h1
    · exact Or.inr (List.mem_cons_of_mem p h1)

/-- The `byId` keys after indexing point objects with fresh, pairwise
distinct, non-empty ids are the old keys followed by those ids in order. -/
theorem init_byId_keys (folderKey : String) (ps : List Point) (ix : Indexes) :
    (∀ p ∈ ps, ∃ k, p.id = some k ∧ k ≠ "" ∧ k ∉ ix.byId.map Prod.fst) →
    (ps.map (fun p => p.id.getD "")).Nodup →
    ((ps.map RawEntry.obj).foldl (indexEntry folderKey) ix).byId.map Prod.fst
      = ix.byId.map Prod.fst ++ ps.map (fun p => p.id.getD "") := by
  induction ps generalizing ix with
  | nil =>
    intro _ _
    simp
  | cons p t ih =>
    intro h hnd
    rw [List.map_cons] at hnd
    obtain ⟨hhead, htail⟩ := List.nodup_cons.mp hnd
    rw [List.map_cons, List.foldl_cons]
    rcases h p (List.mem_cons_self p t) with ⟨k, hk, hkne, hkfresh⟩
    have hkgetD : p.id.getD "" = k := by
      rw [hk]
      rfl
    have hbyId : (indexEntry folderKey ix (.obj p)).byId = aset ix.byId k p := by
      rw [indexEntry_byId]
      simp only [hk]
      rw [if_pos hkne]
    have hkeys : (indexEntry folderKey ix (.obj p)).byId.map Prod.fst
        = ix.byId.map Prod.fst ++ [k] := by
      rw [hbyId]
      exact keys_aset_not_mem _ _ _ (fun hc => hkfresh ((any_key_iff _ _).mp hc))
    rw [ih (indexEntry folderKey ix (.obj p)) ?_ htail]
    · rw [hkeys, List.map_cons, hkgetD, List.append_assoc]
      rfl
    · intro q hq
      rcases h q (List.mem_cons_of_mem p hq) with ⟨kq, hkq, hkqne, hkqfresh⟩
      refine ⟨kq, hkq, hkqne, ?_⟩
      rw [hkeys]
      intro hc
      rcases List.mem_append.mp hc with hc | hc
      · exact hkqfresh hc
      · rw [List.mem_singleton] at hc
        subst hc
        rw [hkgetD] at hhead
        exact hhead (List.mem_map.mpr ⟨q, hq, by rw [hkq]; rfl⟩)

/-- Key presence in `byCountryCity` persists through index building. -/
theorem fold_ccm_presence (folderKey : String) (es : List RawEntry) (ix : Indexes)
    (k : String) (h : ∃ kv ∈ ix.byCountryCity, kv.1 = k) :
    ∃ kv ∈ (es.foldl (indexEntry folderKey) ix).byCountryCity, kv.1 = k := by
  induction es generalizing ix with
  | nil => exact h
  | cons e t ih =>
    rw [List.foldl_cons]
    apply ih
    rw [indexEntry_byCountryCity]
    cases e with
    | nonObj => exact h
    | obj p =>
      dsimp only
      split
      · exact key_presence_aset _ _ _ _ h
      · exact h

/-- Indexing a point with a well-formed country code and trimmed non-empty
city makes its `countryCode:slug(city)` key present in `byCountryCity`. -/
theorem init_ccm_presence (folderKey : String) (ps : List Point) (ix : Indexes)
    (p : Point) (cc ci : String)
    (hcc : p.countryCode = some cc) (hccU : isTwoUpper cc = true)
    (hci : p.city = some ci) (hcine : ci ≠ "") (hcitrim : jsTrim ci = ci) :
    p ∈ ps →
    ∃ kv ∈ ((ps.map RawEntry.obj).foldl (indexEntry folderKey) ix).byCountryCity,
      kv.1 = ccCityKey cc ci := by
  induction ps generalizing ix with
  | nil =>
    intro hp
    cases hp
  | cons q t ih =>
    intro hp
    rw [List.map_cons, List.foldl_cons]
    rcases List.mem_cons.mp hp with h | h
    · subst h
      have hkey : ∃ kv ∈ (indexEntry folderKey ix (.obj p)).byCountryCity,
          kv.1 = ccCityKey cc ci := by
        rw [indexEntry_byCountryCity]
        dsimp only
        have hccx : jsToUpper (jsTrim (p.countryCode.getD "")) = cc := by
          rw [hcc]
          dsimp only [Option.getD_some]
          rw [jsTrim_fixed_upper cc hccU, jsToUpper_fixed cc hccU]
        have hcix : jsTrim (p.city.getD "") = ci := by
          rw [hci]
          dsimp only [Option.getD_some]
          exact hcitrim
        rw [hccx, hcix, if_pos ⟨isTwoUpper_ne_empty cc hccU, hcine⟩]
        exact ⟨(ccCityKey cc ci, p), mem_aset_self _ _ _, rfl⟩
      exact fold_ccm_presence folderKey (t.map RawEntry.obj) _ _ hkey
    · exact ih _ h
theorem jsOr_eq_none {α : Type} (a b : Option α) (h : jsOr a b = none) :
    a = none ∧ b = none := by
  unfold jsOr at h
  cases a with
  | some x => cases h
  | none => exact ⟨rfl, h⟩

/-- Shape of every point stored in the second run's maps: batch-stamped,
finite coordinates, id among the first run's output ids, truthy postcard id
among the batch's identifiers. -/
def Val2 (folderArg : String) (ids1 pids : List String) (v : Point) : Prop :=
  v.sourceFolder = some folderArg ∧
  v.lat.isSome = true ∧ v.lng.isSome = true ∧
  (∃ k, v.id = some k ∧ k ∈ ids1) ∧
  (∃ pid, v.postcardId = some pid ∧ pid ≠ "" ∧ pid ∈ pids)

/-- The inductive invariant of the second run's loop state: no point is ever
added, the `byId` key list never changes, every stored value is batch-shaped,
and every `countryCode:city` key present at the start stays present. -/
structure Run2Inv (folderArg : String) (cache : Cache) (ids1 pids : List String)
    (ccm0 : List (String × Point)) (s : LoopState) : Prop where
  cacheEq : s.cache = cache
  added0 : s.added = 0
  keysEq : s.ix.byId.map Prod.fst = ids1
  byId_val : ∀ kv ∈ s.ix.byId, Val2 folderArg ids1 pids kv.2 ∧ kv.2.id = some kv.1
  pc_val : ∀ kv ∈ s.ix.byPostcardId, Val2 folderArg ids1 pids kv.2
  ccm_val : ∀ kv ∈ s.ix.byCountryCity, Val2 folderArg ids1 pids kv.2
  cif_val : ∀ kv ∈ s.ix.byCityInFolder, Val2 folderArg ids1 pids kv.2
  ccm_pres : ∀ k, (∃ kv ∈ ccm0, kv.1 = k) → ∃ kv ∈ s.ix.byCountryCity, kv.1 = k

/-- One loop iteration of the second run preserves its invariant: a resource
whose cache key resolves always finds an existing match (so it updates, never
creates), and a resource that cannot resolve coordinates is skipped. -/
theorem run2_step (folderArg folderKey : String) (cache : Cache)
    (dnOf : String → Option String) (ids1 pids : List String)
    (ccm0 : List (String × Point))
    (hfkeq : folderKey = jsToLower (jsTrim folderArg)) (hfk : folderKey ≠ "")
    (s : LoopState) (r : Resource)
    (hmeta : jsTrim (r.metaPlaceId.getD "") = "")
    (hrpids : ∀ pid, r.public_id = some pid → pid ≠ "" → pid ∈ pids)
    (hcov : ∀ pid pc, r.public_id = some pid → pid ≠ "" →
      parsePlaceFromPublicId pid = some pc →
      cacheFinite cache (normalizeKey pc.countryCode pc.city) →
      ∃ kv ∈ ccm0, kv.1 = ccCityKey pc.countryCode pc.city)
    (inv : Run2Inv folderArg cache ids1 pids ccm0 s) :
    Run2Inv folderArg cache ids1 pids ccm0
      (processResource folderArg folderKey false geoNone dnOf s r) := by
  unfold processResource
  cases hr : r.public_id with
  | none => exact inv
  | some publicId =>
    dsimp only
    by_cases hpe : publicId = ""
    · rw [if_pos hpe]
      exact inv
    · rw [if_neg hpe]
      cases hp : parsePlaceFromPublicId publicId with
      | none =>
        dsimp only
        exact ⟨inv.cacheEq, inv.added0, inv.keysEq, inv.byId_val, inv.pc_val,
          inv.ccm_val, inv.cif_val, inv.ccm_pres⟩
      | some parsed =>
        dsimp only
        rw [hmeta]
        rw [if_neg (show ¬(("" : String) ≠ "") from fun hcon => hcon rfl)]
        cases hex : lookupExisting s.ix "" publicId parsed.countryCode parsed.city with
        | some e =>
          dsimp only [Option.some_bind]
          have hV2 : Val2 folderArg ids1 pids e := by
            rw [lookupExisting_no_meta] at hex
            rcases jsOr_eq_some _ _ _ hex with h | h
            · exact inv.pc_val (publicId, e) (mem_of_aget _ _ _ h)
            · rcases jsOr_eq_some _ _ _ h with h2 | h2
              · exact inv.ccm_val _ (mem_of_aget _ _ _ h2)
              · split at h2
                · exact inv.cif_val _ (mem_of_aget _ _ _ h2)
                · cases h2
          rcases hV2 with ⟨hesrc, helat, helng, ⟨k, hek, hkids⟩,
            ⟨pide, hepid, hepidne, hepidmem⟩⟩
          rcases Option.isSome_iff_exists.mp helat with ⟨la, hla⟩
          rcases Option.isSome_iff_exists.mp helng with ⟨lo, hlo⟩
          simp only [hek, Option.getD_some, hla, hlo]
          rw [resolveCoords_some_some]
          dsimp only
          rw [if_neg (by simp)]
          have hsrc2 : jsToLower (jsTrim (e.sourceFolder.getD "")) = folderKey := by
            rw [hesrc]
            exact hfkeq.symm
          have hNval : Val2 folderArg ids1 pids
              (mergeExisting e folderKey folderArg k parsed.city parsed.countryCode
                (jsOrOpt (getCountryName dnOf parsed.countryCode) e.countryName)
                (some la) (some lo) publicId (jsTrim (r.metaDesc.getD ""))) ∧
              (mergeExisting e folderKey folderArg k parsed.city parsed.countryCode
                (jsOrOpt (getCountryName dnOf parsed.countryCode) e.countryName)
                (some la) (some lo) publicId (jsTrim (r.metaDesc.getD ""))).id
                = some k := by
            rw [mergeExisting_auto _ _ _ _ _ _ _ _ _ _ _ hsrc2 hfk]
            exact ⟨⟨rfl, rfl, rfl, ⟨k, rfl, hkids⟩,
              ⟨publicId, rfl, hpe, hrpids publicId hr hpe⟩⟩, rfl⟩
          have hkkeys : k ∈ s.ix.byId.map Prod.fst := by
            rw [inv.keysEq]
            exact hkids
          have hany : (s.ix.byId.any (fun e0 => e0.1 == k)) = true :=
            (any_key_iff _ _).mpr hkkeys
          refine ⟨inv.cacheEq, inv.added0, ?_, ?_, ?_, ?_, ?_, ?_⟩
          · exact (keys_aset_mem _ _ _ hany).trans inv.keysEq
          · exact aset_forall _ _ _ _ inv.byId_val ⟨hNval.1, hNval.2⟩
          · exact aset_forall _ _ _ _ inv.pc_val hNval.1
          · exact aset_forall _ _ _ _ inv.ccm_val hNval.1
          · exact aset_forall _ _ _ _ inv.cif_val hNval.1
          · intro k0 h0
            exact key_presence_aset _ _ _ _ (inv.ccm_pres k0 h0)
        | none =>
          dsimp only [Option.none_bind, Option.getD_none]
          rw [inv.cacheEq]
          by_cases hfin : cacheFinite cache (normalizeKey parsed.countryCode parsed.city)
          · exfalso
            have hccm := inv.ccm_pres (ccCityKey parsed.countryCode parsed.city)
              (hcov publicId parsed hr hpe hp hfin)
            have hsome := aget_isSome_of_key_mem _ _ hccm
            rw [lookupExisting_no_meta] at hex
            have h2 := (jsOr_eq_none _ _ hex).2
            have h3 := (jsOr_eq_none _ _ h2).1
            rw [h3] at hsome
            exact absurd hsome (by simp)
          · have hcond : (!((resolveCoords false geoNone cache s.geocoded s.warnings
                parsed.countryCode parsed.city publicId none none).lat.isSome &&
                (resolveCoords false geoNone cache s.geocoded s.warnings
                  parsed.countryCode parsed.city publicId none none).lng.isSome))
                = true := by
              have hAB : ((resolveCoords false geoNone cache s.geocoded s.warnings
                  parsed.countryCode parsed.city publicId none none).lat.isSome &&
                  (resolveCoords false geoNone cache s.geocoded s.warnings
                    parsed.countryCode parsed.city publicId none none).lng.isSome)
                  = false := by
                cases hA : (resolveCoords false geoNone cache s.geocoded s.warnings
                    parsed.countryCode parsed.city publicId none none).lat.isSome with
                | false => rw [Bool.false_and]
                | true =>
                  cases hB : (resolveCoords false geoNone cache s.geocoded s.warnings
                      parsed.countryCode parsed.city publicId none none).lng.isSome with
                  | false =>
                    rw [Bool.true_and]
                  | true =>
                    exact absurd ((resolveCoords_none_geoNone cache s.geocoded s.warnings
                      parsed.countryCode parsed.city publicId).mp ⟨hA, hB⟩) hfin
              rw [hAB]
              rfl
            rw [if_pos hcond]
            refine ⟨?_, inv.added0, inv.keysEq, inv.byId_val, inv.pc_val,
              inv.ccm_val, inv.cif_val, inv.ccm_pres⟩
            exact resolveCoords_geoNone_cache _ _ _ _ _ _ _ _ _
        
/-- Folding the second run's loop preserves its invariant. -/
theorem run2_fold (folderArg folderKey : String) (cache : Cache)
    (dnOf : String → Option String) (ids1 pids : List String)
    (ccm0 : List (String × Point))
    (hfkeq : folderKey = jsToLower (jsTrim folderArg)) (hfk : folderKey ≠ "")
    (resources : List Resource) (s : LoopState) :
    (∀ r ∈ resources, jsTrim (r.metaPlaceId.getD "") = "") →
    (∀ r ∈ resources, ∀ pid, r.public_id = some pid → pid ≠ "" → pid ∈ pids) →
    (∀ r ∈ resources, ∀ pid pc, r.public_id = some pid → pid ≠ "" →
      parsePlaceFromPublicId pid = some pc →
      cacheFinite cache (normalizeKey pc.countryCode pc.city) →
      ∃ kv ∈ ccm0, kv.1 = ccCityKey pc.countryCode pc.city) →
    Run2Inv folderArg cache ids1 pids ccm0 s →
    Run2Inv folderArg cache ids1 pids ccm0
      (resources.foldl (processResource folderArg folderKey false geoNone dnOf) s) := by
  induction resources generalizing s with
  | nil =>
    intro _ _ _ inv
    exact inv
  | cons r t ih =>
    intro hmeta hrpids hcov inv
    rw [List.foldl_cons]
    exact ih _ (fun x hx => hmeta x (List.mem_cons_of_mem r hx))
      (fun x hx => hrpids x (List.mem_cons_of_mem r hx))
      (fun x hx => hcov x (List.mem_cons_of_mem r hx))
      (run2_step folderArg folderKey cache dnOf ids1 pids ccm0 hfkeq hfk s r
        (hmeta r (List.mem_cons_self r t))
        (hrpids r (List.mem_cons_self r t))
        (hcov r (List.mem_cons_self r t)) inv)
theorem map_snd_id (m : List (String × Point))
    (h : ∀ kv ∈ m, kv.2.id = some kv.1) :
    (m.map Prod.snd).map Point.id = (m.map Prod.fst).map some := by
  induction m with
  | nil => rfl
  | cons kv t ih =>
    simp only [List.map_cons]
    rw [h kv (List.mem_cons_self kv t),
      ih (fun x hx => h x (List.mem_cons_of_mem kv hx))]

theorem map_snd_getD_eq_keys (m : List (String × Point))
    (h : ∀ kv ∈ m, kv.2.id = some kv.1) :
    (m.map Prod.snd).map (fun p => p.id.getD "") = m.map Prod.fst := by
  induction m with
  | nil => rfl
  | cons kv t ih =>
    simp only [List.map_cons, h kv (List.mem_cons_self kv t), Option.getD_some]
    rw [ih (fun x hx => h x (List.mem_cons_of_mem kv hx))]

/-- C1 (amended): with a non-blank batch label, no metadata place ids,
trim-stable resource identifiers, the geocoder unavailable and `noGeocode`
unset, running the reconciler a second time on the same resources and cache,
starting from the first run's output (which started from an empty registry),
yields exactly the first run's id list, with `added == 0` on the second run,
and the second run's three counters always total the number of truthy
resources.  (The original claim's `updated == len(points)` is false: several
resources can update the same point, see the counterexample.) -/
theorem C1_idempotence (resources : List Resource) (cache : Cache) (folderArg : String)
    (prune prune2 : Bool) (dnOf : String → Option String)
    (hfk : jsToLower (jsTrim folderArg) ≠ "")
    (hmeta : ∀ r ∈ resources, jsTrim (r.metaPlaceId.getD "") = "")
    (htrim : ∀ r ∈ resources, ∀ pid, r.public_id = some pid → jsTrim pid = pid) :
    (reconcile resources
        ((reconcile resources [] cache folderArg false prune geoNone dnOf).points.map
          RawEntry.obj) cache folderArg false prune2 geoNone dnOf).points.map Point.id
      = (reconcile resources [] cache folderArg false prune geoNone dnOf).points.map
          Point.id ∧
    (reconcile resources
        ((reconcile resources [] cache folderArg false prune geoNone dnOf).points.map
          RawEntry.obj) cache folderArg false prune2 geoNone dnOf).added = 0 ∧
    (reconcile resources
        ((reconcile resources [] cache folderArg false prune geoNone dnOf).points.map
          RawEntry.obj) cache folderArg false prune2 geoNone dnOf).added +
      (reconcile resources
        ((reconcile resources [] cache folderArg false prune geoNone dnOf).points.map
          RawEntry.obj) cache folderArg false prune2 geoNone dnOf).updated +
      (reconcile resources
        ((reconcile resources [] cache folderArg false prune geoNone dnOf).points.map
          RawEntry.obj) cache folderArg false prune2 geoNone dnOf).skipped
      = truthyCount resources := by
  have hinv0 : Run1Inv folderArg (jsToLower (jsTrim folderArg)) cache
      ({ ix := {}, cache := cache } : LoopState) := by
    refine ⟨rfl, rfl, ?_, ?_, ?_, ?_, ?_, ?_⟩
    · intro kv h
      cases h
    · intro kv h
      cases h
    · intro kv h
      cases h
    · intro kv h
      cases h
    · intro kv0 h0
      rcases h0 with h | h <;> cases h
    · intro kv h
      cases h
  obtain ⟨inv1, -, cov1⟩ := run1_fold folderArg (jsToLower (jsTrim folderArg)) cache dnOf
    rfl hfk resources { ix := {}, cache := cache } hmeta hinv0
  set st1 := resources.foldl
    (processResource folderArg (jsToLower (jsTrim folderArg)) false geoNone dnOf)
    ({ ix := {}, cache := cache } : LoopState) with hst1def
  have hpids1 : st1.publicIdsInFolder = truthyIds resources := by
    rw [hst1def, foldl_publicIds]
    rfl
  have hnd1 : (st1.ix.byId.map Prod.fst).Nodup :=
    (foldl_processResource_goodEntry [] folderArg (jsToLower (jsTrim folderArg))
      false geoNone dnOf resources { ix := {}, cache := cache }
      (fun kv h => absurd h (List.not_mem_nil kv)) (by exact List.nodup_nil)).2
  have hids_eq : st1.ix.byId.map Prod.fst
      = (st1.ix.byId.map Prod.snd).map (fun p => p.id.getD "") :=
    (map_snd_getD_eq_keys st1.ix.byId (fun kv hkv => (inv1.byId_val kv hkv).2)).symm
  have htrim1 : ∀ pid ∈ truthyIds resources, jsTrim pid = pid := by
    intro pid hpid
    rcases truthyIds_spec resources pid hpid with ⟨r, hr, hrpid, _⟩
    exact htrim r hr pid hrpid
  have hall1 : ∀ p ∈ st1.ix.byId.map Prod.snd,
      p.sourceFolder = some folderArg ∧
      ∃ pid, p.postcardId = some pid ∧ pid ≠ "" ∧ jsTrim pid = pid ∧
        pid ∈ st1.publicIdsInFolder := by
    intro p hp
    rcases List.mem_map.mp hp with ⟨kv, hkv, hkvp⟩
    rcases (inv1.byId_val kv hkv).1 with ⟨cc, ci, pid, hcc, hccU, hci, hcine, hcitr,
      hpid, hpidmem, hpidne, hsrc, hlat, hlng, hidv⟩
    refine ⟨?_, pid, ?_, hpidne, htrim1 pid (hpids1 ▸ hpidmem), hpidmem⟩
    · rw [← hkvp]
      exact hsrc
    · rw [← hkvp]
      exact hpid
  have hpts1 : (reconcile resources [] cache folderArg false prune geoNone dnOf).points
      = st1.ix.byId.map Prod.snd := by
    have he : (reconcile resources [] cache folderArg false prune geoNone dnOf).points
        = finalOut prune (jsToLower (jsTrim folderArg)) st1.publicIdsInFolder st1.ix := rfl
    rw [he]
    exact finalOut_all prune folderArg (jsToLower (jsTrim folderArg))
      st1.publicIdsInFolder st1.ix rfl hfk hall1
  rw [hpts1]
  set ps1 := st1.ix.byId.map Prod.snd with hps1def
  set ix0 := (ps1.map RawEntry.obj).foldl
    (indexEntry (jsToLower (jsTrim folderArg))) ({} : Indexes) with hix0def
  set st2 := resources.foldl
    (processResource folderArg (jsToLower (jsTrim folderArg)) false geoNone dnOf)
    ({ ix := ix0, cache := cache } : LoopState) with hst2def
  have hps1Loop : ∀ p ∈ ps1, LoopVal folderArg st1.publicIdsInFolder p := by
    intro p hp
    rcases List.mem_map.mp hp with ⟨kv, hkv, hkvp⟩
    rw [← hkvp]
    exact (inv1.byId_val kv hkv).1
  have hfresh : ∀ p ∈ ps1, ∃ k, p.id = some k ∧ k ≠ "" ∧
      k ∉ (({} : Indexes)).byId.map Prod.fst := by
    intro p hp
    rcases hps1Loop p hp with ⟨cc, ci, pid, h1, h2, h3, h4, h5, h6, h7, h8, h9,
      h10, h11, hidv⟩
    exact ⟨toTravelPointId cc ci, hidv, toTravelPointId_ne_empty cc ci,
      fun h => absurd h (List.not_mem_nil _)⟩
  have hndps1 : (ps1.map (fun p => p.id.getD "")).Nodup := by
    rw [← hids_eq]
    exact hnd1
  have hids1 : ix0.byId.map Prod.fst = ps1.map (fun p => p.id.getD "") := by
    rw [hix0def]
    rw [init_byId_keys (jsToLower (jsTrim folderArg)) ps1 {} hfresh hndps1]
    exact List.nil_append _
  have hV2ps1 : ∀ p ∈ ps1,
      Val2 folderArg (ix0.byId.map Prod.fst) (truthyIds resources) p := by
    intro p hp
    rcases hps1Loop p hp with ⟨cc, ci, pid, hcc, hccU, hci, hcine, hcitr, hpid,
      hpidmem, hpidne, hsrc, hlat, hlng, hidv⟩
    refine ⟨hsrc, hlat, hlng, ⟨toTravelPointId cc ci, hidv, ?_⟩,
      ⟨pid, hpid, hpidne, hpids1 ▸ hpidmem⟩⟩
    rw [hids1]
    exact List.mem_map.mpr ⟨p, hp, by rw [hidv]; rfl⟩
  have hinv2 : Run2Inv folderArg cache (ix0.byId.map Prod.fst) (truthyIds resources)
      ix0.byCountryCity ({ ix := ix0, cache := cache } : LoopState) := by
    refine ⟨rfl, rfl, rfl, ?_, ?_, ?_, ?_, fun k h => h⟩
    · intro kv hkv
      rcases init_byId_mem (jsToLower (jsTrim folderArg)) ps1 {} kv hkv with h | h
      · cases h
      · exact ⟨hV2ps1 kv.2 h.1, h.2⟩
    · intro kv hkv
      rcases init_pc_mem (jsToLower (jsTrim folderArg)) ps1 {} kv hkv with h | h
      · cases h
      · exact hV2ps1 kv.2 h
    · intro kv hkv
      rcases init_ccm_mem (jsToLower (jsTrim folderArg)) ps1 {} kv hkv with h | h
      · cases h
      · exact hV2ps1 kv.2 h
    · intro kv hkv
      rcases init_cif_mem (jsToLower (jsTrim folderArg)) ps1 {} kv hkv with h | h
      · cases h
      · exact hV2ps1 kv.2 h
  have hcov2 : ∀ r ∈ resources, ∀ pid pc, r.public_id = some pid → pid ≠ "" →
      parsePlaceFromPublicId pid = some pc →
      cacheFinite cache (normalizeKey pc.countryCode pc.city) →
      ∃ kv ∈ ix0.byCountryCity, kv.1 = ccCityKey pc.countryCode pc.city := by
    intro r hr pid pc hpid hne hparse hfin
    rcases cov1 r hr pid pc hpid hne hparse hfin with ⟨kv, hkv, hkcc, ci, hkci, hslug⟩
    have hpmem : kv.2 ∈ ps1 := List.mem_map.mpr ⟨kv, hkv, rfl⟩
    rcases hps1Loop kv.2 hpmem with ⟨ccp, cip, pidp, hpcc, hpccU, hpci, hpcine,
      hpcitr, _, _, _, _, _, _, _⟩
    have hcceq : ccp = pc.countryCode := by
      rw [hpcc] at hkcc
      injection hkcc
    have hcieq : cip = ci := by
      rw [hpci] at hkci
      injection hkci
    rcases init_ccm_presence (jsToLower (jsTrim folderArg)) ps1 {} kv.2 ccp cip
      hpcc hpccU hpci hpcine hpcitr hpmem with ⟨kv2, hkv2, hkey2⟩
    refine ⟨kv2, hkv2, ?_⟩
    rw [hkey2, hcceq]
    apply ccCityKey_congr_slug
    rw [hcieq]
    exact hslug
  have hrpids2 : ∀ r ∈ resources, ∀ pid, r.public_id = some pid → pid ≠ "" →
      pid ∈ truthyIds resources :=
    fun r hr pid hpid hne => mem_truthyIds resources r pid hr hpid hne
  have hinv2fin := run2_fold folderArg (jsToLower (jsTrim folderArg)) cache dnOf
    (ix0.byId.map Prod.fst) (truthyIds resources) ix0.byCountryCity rfl hfk resources
    { ix := ix0, cache := cache } hmeta hrpids2 hcov2 hinv2
  have hpids2 : st2.publicIdsInFolder = truthyIds resources := by
    rw [hst2def, foldl_publicIds]
    rfl
  have hall2 : ∀ p ∈ st2.ix.byId.map Prod.snd,
      p.sourceFolder = some folderArg ∧
      ∃ pid, p.postcardId = some pid ∧ pid ≠ "" ∧ jsTrim pid = pid ∧
        pid ∈ st2.publicIdsInFolder := by
    intro p hp
    rcases List.mem_map.mp hp with ⟨kv, hkv, hkvp⟩
    rcases (hinv2fin.byId_val kv hkv).1 with ⟨hsrc, hlat, hlng, -,
      ⟨pid, hpid, hpidne, hpidmem⟩⟩
    refine ⟨?_, pid, ?_, hpidne, htrim1 pid hpidmem, ?_⟩
    · rw [← hkvp]
      exact hsrc
    · rw [← hkvp]
      exact hpid
    · rw [hpids2]
      exact hpidmem
  have hpts2 : (reconcile resources (ps1.map RawEntry.obj) cache folderArg false prune2
      geoNone dnOf).points = st2.ix.byId.map Prod.snd := by
    have he : (reconcile resources (ps1.map RawEntry.obj) cache folderArg false prune2
        geoNone dnOf).points
        = finalOut prune2 (jsToLower (jsTrim folderArg)) st2.publicIdsInFolder
            st2.ix := rfl
    rw [he]
    exact finalOut_all prune2 folderArg (jsToLower (jsTrim folderArg))
      st2.publicIdsInFolder st2.ix rfl hfk hall2
  rw [hpts2]
  have hmap2 : (st2.ix.byId.map Prod.snd).map Point.id
      = (st2.ix.byId.map Prod.fst).map some :=
    map_snd_id st2.ix.byId (fun kv hkv => (hinv2fin.byId_val kv hkv).2)
  have hmap1 : ps1.map Point.id = (st1.ix.byId.map Prod.fst).map some := by
    rw [hps1def]
    exact map_snd_id st1.ix.byId (fun kv hkv => (inv1.byId_val kv hkv).2)
  have hkeys2 : st2.ix.byId.map Prod.fst = ix0.byId.map Prod.fst := hinv2fin.keysEq
  have hACC : st2.added + st2.updated + st2.skipped = truthyCount resources := by
    rw [hst2def, foldl_counts]
    simp
  refine ⟨?_, hinv2fin.added0, hACC⟩
  rw [hmap2, hmap1, hkeys2, hids1, hids_eq]
/-- Concrete batch for C1: two resources whose identifiers parse to the same
place (`FR`/`Paris`), with cached coordinates for its normalized key. -/
def c1Resources : List Resource :=
  [⟨some "FR_Paris_a", none, none⟩, ⟨some "FR_Paris_b", none, none⟩]

def c1Cache : Cache := [("FR:paris", ⟨some 1, some 2, none, none⟩)]

def c1Run1 : ReconcileResult :=
  reconcile c1Resources [] c1Cache "Countries" false false geoNone dnNone

def c1Run2 : ReconcileResult :=
  reconcile c1Resources (c1Run1.points.map RawEntry.obj) c1Cache "Countries" false false
    geoNone dnNone

/-- C1 counterexample: on the second run over the first run's output, `added`
is 0 and the id set is unchanged, but `updated` is 2 while the output has a
single point, so `updated == len(points)` is false. -/
theorem C1_counterexample :
    c1Run2.added = 0 ∧ c1Run2.updated = 2 ∧ c1Run2.points.length = 1 ∧
    ¬(c1Run2.updated = c1Run2.points.length) := by
  decide

/-- Witness: the amended idempotence theorem applies to the concrete batch. -/
theorem C1_witness :
    (jsToLower (jsTrim "Countries") ≠ "" ∧
      (∀ r ∈ c1Resources, jsTrim (r.metaPlaceId.getD "") = "") ∧
      (∀ r ∈ c1Resources, ∀ pid, r.public_id = some pid → jsTrim pid = pid)) ∧
    (c1Run2.points.map Point.id = c1Run1.points.map Point.id ∧
      c1Run2.added = 0 ∧
      c1Run2.added + c1Run2.updated + c1Run2.skipped = truthyCount c1Resources) := by
  have htrim : ∀ r ∈ c1Resources, ∀ pid, r.public_id = some pid → jsTrim pid = pid := by
    intro r hr pid hpid
    rcases List.mem_cons.mp hr with h | h
    · subst h
      injection hpid with h2
      rw [← h2]
      decide
    · rcases List.mem_cons.mp h with h2 | h2
      · subst h2
        injection hpid with h3
        rw [← h3]
        decide
      · cases h2
  exact ⟨⟨by decide, by decide, htrim⟩,
    C1_idempotence c1Resources c1Cache "Countries" false false dnNone (by decide)
      (by decide) htrim⟩
